import Mathlib

/-!
Verification of the reshuffle-eidr-connector core against its specification.

The development shallowly embeds the connector's pure core in Lean:

* `src/validate.ts` — the EIDR identifier validator (`validateId`);
* `src/jsonQuery.ts` — the JSON-to-expression query compiler pieces the
  claims mention (`assertSingleProperty`, `nary`, `OR`, `idQuery`);
* `src/jsonPopulateValue.ts` — the value-wrapping normalizer
  (`parseJsonWithOneRule` / `parseJsonWithValue`): its in-place mutation of
  the argument tree is modelled by the function `parseJsonWithValueEffect`
  returning the post-state, and the value the function actually returns by
  `parseJsonWithValueResult`;
* the response-processing fragments of `src/index.ts` (`query`,
  `resolveContentID`, `resolve`) that run after the HTTP request returns a
  parsed document.

JavaScript values are modelled by the inductive type `JVal`; `undefined` is
the constructor `JVal.undef`.  Property reads and writes (`jget`, `jset`)
follow JavaScript semantics for objects and for arrays indexed by canonical
numeric strings.  Reading a property of `undefined`/`null` throws a
TypeError in JavaScript; the embedding returns `undef` there, which is only
relied on for responses the claims assume well-formed.  String-object
properties (such as `"abc".length`) are never consulted by the embedded
code paths and are not modelled.
-/

namespace EIDR

/-- A JavaScript value as the connector manipulates them.  Numeric leaves
are modelled as integers (the registry's numeric fields are integral); an
object is its ordered own-property list. -/
inductive JVal where
  | undef : JVal
  | null : JVal
  | bool : Bool → JVal
  | num : Int → JVal
  | str : String → JVal
  | arr : List JVal → JVal
  | obj : List (String × JVal) → JVal
  deriving Inhabited

/-- JavaScript truthiness of a value (`if (v)`). -/
def truthy : JVal → Bool
  | .undef => false
  | .null => false
  | .bool b => b
  | .num n => decide (n ≠ 0)
  | .str s => decide (s ≠ "")
  | .arr _ => true
  | .obj _ => true

/-- JavaScript `typeof v === 'object'`: true for objects, arrays and `null`. -/
def isObjectType : JVal → Bool
  | .null => true
  | .arr _ => true
  | .obj _ => true
  | _ => false

/-- True exactly for objects and arrays (the values whose properties the
embedded code reads and writes). -/
def isObjArr : JVal → Bool
  | .arr _ => true
  | .obj _ => true
  | _ => false

def isNullOrUndef : JVal → Bool
  | .undef => true
  | .null => true
  | _ => false

/-- JavaScript `Array.isArray`. -/
def isArray : JVal → Bool
  | .arr _ => true
  | _ => false

/-- JavaScript strict equality of a value with a string literal
(`v === 's'`): true only when `v` is that very string. -/
def jsEqStr (v : JVal) (s : String) : Bool :=
  match v with
  | .str t => t = s
  | _ => false

/-- The decimal digit character for `n < 10`. -/
def digitChar (n : Nat) : Char := Char.ofNat (48 + n)

/-- Decimal digits of a natural number, most significant first: the list of
characters JavaScript's ToString produces for an array index. -/
def natKeyChars (n : Nat) : List Char :=
  if n < 10 then [digitChar n] else natKeyChars (n / 10) ++ [digitChar (n % 10)]
termination_by n
decreasing_by exact Nat.div_lt_self (by omega) (by omega)

/-- JavaScript's ToString of an array index, used when a number is used as a
property key. -/
def natKey (n : Nat) : String := ⟨natKeyChars n⟩

/-- The value of a decimal digit character, if it is one. -/
def charDigit : Char → Option Nat
  | c => if '0' ≤ c ∧ c ≤ '9' then some (c.toNat - 48) else none

/-- Accumulating decimal read of a digit string; `none` when a non-digit
appears. -/
def digitsToNat : List Char → Nat → Option Nat
  | [], acc => some acc
  | c :: cs, acc =>
    match charDigit c with
    | some d => digitsToNat cs (acc * 10 + d)
    | none => none

/-- The array index a property key stands for, when the key is the canonical
decimal form of an index (JavaScript array-index semantics: no leading
zeros except `"0"` itself, digits only). -/
def toIndex (k : String) : Option Nat :=
  match k.data with
  | [] => none
  | c :: cs =>
    if c = '0' then (if cs = [] then some 0 else none)
    else digitsToNat (c :: cs) 0

/-- Lookup in an object's ordered property list. -/
def getAssoc : List (String × JVal) → String → Option JVal
  | [], _ => none
  | (k', v') :: rest, k => if k' = k then some v' else getAssoc rest k

/-- JavaScript object property write: an existing key keeps its position,
a new key is appended (insertion order). -/
def setAssoc : List (String × JVal) → String → JVal → List (String × JVal)
  | [], k, v => [(k, v)]
  | (k', v') :: rest, k, v =>
    if k' = k then (k, v) :: rest else (k', v') :: setAssoc rest k v

/-- JavaScript property read `v[k]`.  Objects use their property list;
arrays answer canonical index keys.  Absent properties read as `undefined`,
as does any read from a primitive (the embedded code never reads the
built-in properties of primitives). -/
def jget (v : JVal) (k : String) : JVal :=
  match v with
  | .obj fields => (getAssoc fields k).getD .undef
  | .arr items =>
    match toIndex k with
    | some i => (items.get? i).getD .undef
    | none => .undef
  | _ => (.undef)

/-- JavaScript property write `v[k] = x`.  On an array, an in-bounds
canonical index key replaces that element; writes past the end (which would
extend the array) and non-index keys on arrays are left out, as the
embedded code never performs them.  Writes to primitives are silently
ignored, as in non-strict JavaScript. -/
def jset (v : JVal) (k : String) (x : JVal) : JVal :=
  match v with
  | .obj fields => .obj (setAssoc fields k x)
  | .arr items =>
    match toIndex k with
    | some i => .arr (items.set i x)
    | none => .arr items
  | w => w

/-- JavaScript spread of a value's own enumerable properties (`{...v}`).
Arrays spread to index-keyed pairs.  Primitives spread to nothing (string
character spread is never exercised by the embedded code and is not
modelled). -/
def jsSpread : JVal → List (String × JVal)
  | .obj fields => fields
  | .arr items => items.enum.map (fun p => (natKey p.1, p.2))
  | _ => []

/-- JavaScript WhiteSpace as `String.prototype.trim` removes it (the code
points the registry's strings can carry). -/
def isJsSpace (c : Char) : Bool :=
  c = ' ' ∨ c = '\t' ∨ c = '\n' ∨ c = '\r' ∨ c = '\x0b' ∨ c = '\x0c' ∨ c = '\u00A0'

def jsTrimChars (l : List Char) : List Char :=
  ((l.dropWhile isJsSpace).reverse.dropWhile isJsSpace).reverse

/-- JavaScript `s.trim()`. -/
def jsTrim (s : String) : String := ⟨jsTrimChars s.data⟩

/-- JavaScript `s.toUpperCase()` on the ASCII strings the code feeds it. -/
def jsToUpper (s : String) : String := ⟨s.data.map Char.toUpper⟩

def splitOnCharAux (sep : Char) : List Char → List Char → List String
  | [], acc => [⟨acc.reverse⟩]
  | c :: cs, acc =>
    if c = sep then ⟨acc.reverse⟩ :: splitOnCharAux sep cs [] else splitOnCharAux sep cs (c :: acc)

/-- JavaScript `s.split(sep)` for a one-character separator (the code splits
on `'.'` and `' '` only): empty pieces between, before and after separators
are kept. -/
def jsSplitOnChar (sep : Char) (s : String) : List String := splitOnCharAux sep s.data []

/-- JavaScript `s.startsWith(p)`. -/
def strStartsWith (s p : String) : Bool := p.data.isPrefixOf s.data

/-- JavaScript `s.slice(0, -1)`. -/
def strDropLast (s : String) : String := ⟨s.data.dropLast⟩

/-- Template-literal stringification of a value, as the code's error
messages use it.  Arrays join their elements' displays with commas
(`null`/`undefined` elements display as empty, as in JavaScript). -/
def jsDisplay : JVal → String
  | .undef => "undefined"
  | .null => "null"
  | .bool b => cond b "true" "false"
  | .num n => toString n
  | .str s => s
  | .obj _ => "[object Object]"
  | .arr items => String.intercalate "," (items.attach.map (fun x =>
      if isNullOrUndef x.1 then "" else jsDisplay x.1))
decreasing_by
  have h1 := List.sizeOf_lt_of_mem x.2
  simp_wf
  omega

/-- JavaScript `Number(v)` restricted to the shapes the connector meets:
`none` models NaN.  String coercion reads an optionally negated decimal
integer after trimming (the registry's TotalMatches is such a string);
fractional and exponent forms, and object coercion, are not modelled. -/
def jsNumberInt : JVal → Option Int
  | .undef => none
  | .null => some 0
  | .bool b => some (cond b 1 0)
  | .num n => some n
  | .str s =>
    match (jsTrim s).data with
    | [] => some 0
    | '-' :: c :: cs => (digitsToNat (c :: cs) 0).map (fun n => -(n : Int))
    | l => (digitsToNat l 0).map (fun n => (n : Int))
  | _ => none

/-! ## src/validate.ts — the identifier validator -/

/-- One uppercase hexadecimal digit, the `[0-9A-F]` class of the patterns. -/
def isHexUC (c : Char) : Bool := ('0' ≤ c && c ≤ '9') || ('A' ≤ c && c ≤ 'F')

/-- The final check-character class `[0-9A-Z]`. -/
def isCheckChar (c : Char) : Bool := ('0' ≤ c && c ≤ '9') || ('A' ≤ c && c ≤ 'Z')

/-- Consume `[0-9A-F]{4}` from the front of a character list. -/
def hex4 : List Char → Option (List Char)
  | a :: b :: c :: d :: rest =>
    if isHexUC a && isHexUC b && isHexUC c && isHexUC d then some rest else none
  | _ => none

/-- Consume `[0-9A-F]{4}-` from the front. -/
def hexGroupDash (cs : List Char) : Option (List Char) :=
  match hex4 cs with
  | some (x :: rest) => if x = '-' then some rest else none
  | _ => none

/-- Match `([0-9A-F]{4}-){5}[0-9A-Z]` against the whole list: the content
pattern after its `10.5240/` prefix. -/
def contentTail (cs : List Char) : Bool :=
  match hexGroupDash cs >>= hexGroupDash >>= hexGroupDash >>= hexGroupDash >>= hexGroupDash with
  | some [y] => isCheckChar y
  | _ => false

/-- Match `[0-9A-F]{4}-[0-9A-F]{4}` against the whole list: the
other-identifier pattern after its `10.523[79]/` prefix. -/
def otherTail (cs : List Char) : Bool :=
  match hexGroupDash cs with
  | some rest =>
    match hex4 rest with
    | some [] => true
    | _ => false
  | none => false

/-- Consume an expected literal front, returning the remainder. -/
def stripPrefixChars : List Char → List Char → Option (List Char)
  | [], cs => some cs
  | _ :: _, [] => none
  | p :: ps, c :: cs => if c = p then stripPrefixChars ps cs else none

/-- An anchored pattern `^<p><tail>$`: the literal prefix, then the tail
pattern against everything that remains. -/
def matchAnchored (p : String) (tail : List Char → Bool) (s : String) : Bool :=
  match stripPrefixChars p.data s.data with
  | some rest => tail rest
  | none => false

/-- `validateId` from src/validate.ts: true exactly when the identifier
matches `/^10\.5240\/([0-9A-F]{4}-){5}[0-9A-Z]$/` or
`/^10\.523[79]\/[0-9A-F]{4}-[0-9A-F]{4}$/` (the `[79]` alternation written
out as two prefixes); the `typeof id === 'string'` guard is carried by the
argument type. -/
def validateId (id : String) : Bool :=
  matchAnchored "10.5240/" contentTail id ||
  matchAnchored "10.5237/" otherTail id ||
  matchAnchored "10.5239/" otherTail id

/-- Four characters, each an uppercase hexadecimal digit: the spec's `XXXX`
group. -/
def IsHexGroup (g : List Char) : Prop := g.length = 4 ∧ ∀ c ∈ g, isHexUC c = true

/-- The spec's content-identifier pattern
`10.5240/XXXX-XXXX-XXXX-XXXX-XXXX-Y` (X a hex digit, Y a digit or uppercase
letter), stated as a decomposition of the string. -/
def ContentIdShape (s : String) : Prop :=
  ∃ g1 g2 g3 g4 g5 y,
    s.data = "10.5240/".data ++
      (g1 ++ ('-' :: (g2 ++ ('-' :: (g3 ++ ('-' :: (g4 ++ ('-' :: (g5 ++ ['-', y])))))))))
    ∧ IsHexGroup g1 ∧ IsHexGroup g2 ∧ IsHexGroup g3 ∧ IsHexGroup g4 ∧ IsHexGroup g5
    ∧ isCheckChar y = true

/-- The spec's other-identifier pattern `10.523[79]/XXXX-XXXX`. -/
def OtherIdShape (s : String) : Prop :=
  ∃ p g1 g2, (p = "10.5237/" ∨ p = "10.5239/")
    ∧ s.data = p.data ++ (g1 ++ ('-' :: g2))
    ∧ IsHexGroup g1 ∧ IsHexGroup g2

/-! ## src/jsonPopulateValue.ts — the value-wrapping normalizer

The source mutates its argument in place and returns nothing on the object
path.  `parseJsonWithValueEffect` is the post-state of the argument;
`parseJsonWithValueResult` is the value the function returns. -/

/-- The configured value-wrap rules (`jsonFormatWithValueRules`). -/
def jsonFormatWithValueRules : List String :=
  ["ExtraObjectMetadata.EpisodeInfo.SequenceInfo.DistributionNumber"]

/-- The one-field record `{ value: v }` the normalizer wraps scalars in. -/
def wrapVal (v : JVal) : JVal := .obj [("value", v)]

/-- The `forEach` over an array found at the final path segment
(src/jsonPopulateValue.ts lines 22-29): each non-object element is written
to key `i` of `jsonToParse` itself — the parent holding the array, not the
array — exactly as the source's `jsonToParse[i] = { value: arrItem }`
does. -/
def wrapArrayItems : JVal → List JVal → Nat → JVal
  | t, [], _ => t
  | t, item :: rest, i =>
    wrapArrayItems
      (if isObjectType item then t else jset t (natKey i) (wrapVal item)) rest (i + 1)

/-- The final-segment step of `parseJsonWithOneRule` (lines 21-36): an array
at the field has its non-object elements wrapped onto the parent; a truthy
non-object value at the field is replaced by `{ value: ... }`; objects and
falsy values are left untouched. -/
def finalStep (t : JVal) (f : String) : JVal :=
  match jget t f with
  | .arr items => wrapArrayItems t items 0
  | v => if isObjectType v = false && truthy v then jset t f (wrapVal v) else t

/-- `parseJsonWithOneRule` as a function from the argument's prior state to
its state after the call.  Branches follow the source exactly: empty rule or
falsy tree returns unchanged; one remaining segment runs the final step; a
`'*'` segment re-runs the full rule and then the remaining segments on every
child of an object or array; otherwise a truthy field is descended (each
element of an array field separately). -/
def applyRule : JVal → List String → JVal
  | t, [] => t
  | t, f :: fs =>
    if truthy t = false then t
    else if fs = [] then finalStep t f
    else if f = "*" then
      match t with
      | .obj fields => .obj (fields.attach.map (fun x =>
          (x.1.1, applyRule (applyRule x.1.2 (f :: fs)) fs)))
      | .arr items => .arr (items.attach.map (fun x =>
          applyRule (applyRule x.1 (f :: fs)) fs))
      | other => other
    else
      let v := jget t f
      if truthy v then
        match v with
        | .arr items => jset t f (.arr (items.map (fun item => applyRule item fs)))
        | w => jset t f (applyRule w fs)
      else t
termination_by t fs => (fs.length, sizeOf t)
decreasing_by
  · apply Prod.Lex.right
    rcases x with ⟨⟨k, v⟩, hmem⟩
    have hx := List.sizeOf_lt_of_mem hmem
    simp only [Prod.mk.sizeOf_spec] at hx
    simp
    omega
  · apply Prod.Lex.left
    simp
  · apply Prod.Lex.right
    have hx := List.sizeOf_lt_of_mem x.2
    simp
    omega
  · apply Prod.Lex.left
    simp
  · apply Prod.Lex.left
    simp
  · apply Prod.Lex.left
    simp

/-- The mutation `parseJsonWithValue` performs on an object argument: each
configured rule is applied in order, split on `'.'`.  Non-object or falsy
arguments are untouched (the early return). -/
def parseJsonWithValueEffect (json : JVal) : JVal :=
  if truthy json && isObjectType json then
    jsonFormatWithValueRules.foldl (fun t rule => applyRule t (jsSplitOnChar '.' rule)) json
  else json

/-- The value `parseJsonWithValue` returns: the argument itself on the early
return (falsy or non-object input), and `undefined` otherwise — the
function body has no return statement after the rules loop. -/
def parseJsonWithValueResult (json : JVal) : JVal :=
  if truthy json && isObjectType json then .undef else json

/-! ## src/jsonQuery.ts — the query expression compiler (the pieces the
claims concern: `assertSingleProperty`, `nary`, `OR`, `idQuery`).
Failures (the source's thrown `Error`s) are `Except.error` carrying the
message. -/

/-- `assertSingleProperty`: requires an object value with exactly one own
property and returns that key/value pair.  (A `null` argument would make
the source's `Object.keys` throw a TypeError; it is folded into the
structural error here and never exercised.) -/
def assertSingleProperty (o : JVal) : Except String (String × JVal) :=
  if isObjectType o = false then .error ("Not an object: " ++ jsDisplay o)
  else
    match jsSpread o with
    | [kv] => .ok kv
    | _ => .error ("Object must have one single property: " ++ jsDisplay o)

/-- Whether one element passes `nary`'s loop check: it must be a string that
is not blank after trimming. -/
def exprCheckOk : JVal → Bool
  | .str s => decide (jsTrim s ≠ "")
  | _ => false

/-- The string content of an expression element; only applied after
`exprCheckOk` has accepted it, so the default is never reached. -/
def strOfD : JVal → String
  | .str s => s
  | _ => ""

/-- `nary`'s element loop: the error message for the first failing element,
if any (the source throws at the first offender). -/
def checkExprs (op : String) : List JVal → Option String
  | [] => none
  | e :: rest =>
    if exprCheckOk e then checkExprs op rest
    else some (op ++ " requires string expressions: " ++ jsDisplay e)

/-- `nary` from src/jsonQuery.ts: uppercases the operator, rejects
non-array input, rejects any element that is not a non-blank string, then
joins the trimmed elements with the operator and wraps the whole in
parentheses exactly when more than one expression is present.  Note the
empty array passes the loop and yields the empty string. -/
def nary (op : String) (expressions : JVal) : Except String String :=
  let u := jsToUpper op
  match expressions with
  | .arr exprs =>
    match checkExprs u exprs with
    | some msg => .error msg
    | none =>
      .ok ((if 1 < exprs.length then "(" else "")
        ++ String.intercalate (" " ++ u ++ " ") (exprs.map (fun e => jsTrim (strOfD e)))
        ++ (if 1 < exprs.length then ")" else ""))
  | _ => .error (u ++ " requires an array: " ++ jsDisplay expressions)

/-- `OR` from src/jsonQuery.ts: `nary('or', expressions)`. -/
def OR (expressions : List String) : Except String String :=
  nary "or" (.arr (expressions.map .str))

/-- The identifier list of an id predicate: the source's
`list.split(' ').filter((s) => 0 < s.length)`. -/
def idsOf (list : String) : List String :=
  (jsSplitOnChar ' ' list).filter (fun w => 0 < w.length)

/-- The source's per-identifier validation loop: the first identifier
failing `validateId`, if any. -/
def firstInvalidId : List String → Option String
  | [] => none
  | id :: rest => if validateId id then firstInvalidId rest else some id

/-- `idQuery` from src/jsonQuery.ts: one key/value pair names the mode and
the space-separated identifier list; every identifier must validate;
`words` OR-joins one leaf per identifier, `exact` requires exactly one
identifier and returns its single parenthesised leaf.  (Error messages are
the source's, including its `Excat` typo.) -/
def idQuery (o : JVal) : Except String String :=
  match assertSingleProperty o with
  | .error m => .error m
  | .ok (op, list) =>
    match list with
    | .str s =>
      if (idsOf s).length = 0 then .error ("Empty ID list: " ++ s)
      else
        match firstInvalidId (idsOf s) with
        | some bad => .error ("Invalid ID: " ++ bad)
        | none =>
          if op = "words" then
            OR ((idsOf s).map (fun id => "/FullMetadata/BaseObjectData/ID " ++ id))
          else if op = "exact" then
            match idsOf s with
            | [single] => .ok ("(/FullMetadata/BaseObjectData/ID " ++ single ++ ")")
            | _ => .error ("Excat ID expect single ID, but found " ++ toString (idsOf s).length)
          else .error ("Invalid ID query operation: " ++ op)
    | other => .error ("Invalid ID list: " ++ jsDisplay other)

/-! ## src/index.ts — response processing

The fragments of `query`, `resolveContentID` and `resolve` that run on the
parsed response document, after the HTTP transport returns.  `EIDRError`
instances are the structure `EIDRErrInfo` (message, HTTP-like status code,
details); the source's `details` parameter receives raw parsed values in
the status-check branches, so the field is a `JVal`. -/

structure EIDRErrInfo where
  message : String
  status : Nat
  details : JVal

/-- The record the query operation resolves with. -/
structure QueryResponseRecord where
  /-- `Number(res.QueryResults.TotalMatches)`; `none` models NaN. -/
  totalMatches : Option Int
  /-- `parseJsonWithValue(array)` — the value actually returned. -/
  results : JVal

/-- Lines 310-311 of src/index.ts: pick the identifiers-only or
full-metadata attribute, lift a truthy non-array into a one-element array,
and default a falsy attribute to the empty array. -/
def queryResultsArray (idOnly : Bool) (queryResults : JVal) : JVal :=
  let data := jget queryResults (if idOnly then "ID" else "SimpleMetadata")
  if truthy data then
    match data with
    | .arr items => .arr items
    | d => .arr [d]
  else .arr []

/-- Lines 299-322 of src/index.ts: the query operation's handling of the
parsed response.  A non-`'0'` status code raises `Error <code> <type>` with
HTTP status 403 for codes `'4'`/`'5'` and 500 otherwise; with a zero code,
a present `QueryResults` attribute yields the result record, anything else
the `Unrecognized response` error.  (In JavaScript a response without
`Response.Status` would throw a TypeError on the property read; here such
reads yield `undefined`, and the claims only concern well-formed
responses.) -/
def queryProcess (idOnly : Bool) (respDoc : JVal) : Except EIDRErrInfo QueryResponseRecord :=
  let res := jget respDoc "Response"
  let st := jget res "Status"
  if jsEqStr (jget st "Code") "0" = false then
    .error ⟨"Error " ++ jsDisplay (jget st "Code") ++ " " ++ jsDisplay (jget st "Type"),
            if jsEqStr (jget st "Code") "4" || jsEqStr (jget st "Code") "5" then 403 else 500,
            jget st "Details"⟩
  else if truthy (jget res "QueryResults") then
    .ok ⟨jsNumberInt (jget (jget res "QueryResults") "TotalMatches"),
         parseJsonWithValueResult (queryResultsArray idOnly (jget res "QueryResults"))⟩
  else .error ⟨"Unrecognized response", 500, .str "Unrecognized response from registry"⟩

/-- The `Unrecognized response` error of `resolveContentID`, naming the
identifier and the requested view. -/
def unrecognizedResolving (id ty : String) : EIDRErrInfo :=
  ⟨"Unrecognized response", 500,
   .str ("Unrecognized response resolving: id=" ++ id ++ " type=" ++ ty)⟩

/-- Lines 374-383 of src/index.ts: `resolveContentID`'s status check.  Any
non-`'0'` code raises with HTTP status 500 — unlike `query`, no 403
classification for codes `'4'`/`'5'`. -/
def resolveContentStatusError (id : String) (res : JVal) : Option EIDRErrInfo :=
  let st := jget (jget res "Response") "Status"
  if truthy (jget res "Response") && truthy st && (jsEqStr (jget st "Code") "0" = false) then
    some ⟨"Error " ++ jsDisplay (jget st "Code") ++ " " ++ jsDisplay (jget st "Type"),
          500,
          .str ("Registry error: id=" ++ id ++ " type=" ++ jsDisplay (jget st "Type"))⟩
  else none

/-- Lines 385-426 of src/index.ts: the record `resolveContentID` builds
from the response and hands to `parseJsonWithValue`.  `Full`/`SelfDefined`
merge `BaseObjectData` with the sibling `ExtraObjectMetadata`;
`AlternateIDs`/`LinkedAlternateIDs` return `{ ID, <singular> }` with the
absent list defaulted to `[]`; the remaining views strip the `$` attribute
marker and return the rest. -/
def resolveContentExtract (id ty : String) (res : JVal) : Except EIDRErrInfo JVal :=
  if ty = "Full" ∨ ty = "SelfDefined" then
    let attr := ty ++ "Metadata"
    if truthy (jget res attr) = false ∨ truthy (jget (jget res attr) "BaseObjectData") = false then
      .error (unrecognizedResolving id ty)
    else
      .ok (.obj (setAssoc (jsSpread (jget (jget res attr) "BaseObjectData"))
            "ExtraObjectMetadata" (jget (jget res attr) "ExtraObjectMetadata")))
  else if ty = "AlternateIDs" ∨ ty = "LinkedAlternateIDs" then
    let prop := strDropLast ty
    if truthy (jget res ty) = false then .error (unrecognizedResolving id ty)
    else
      .ok (.obj [("ID", jget (jget res ty) "ID"),
                 (prop, if truthy (jget (jget res ty) prop)
                        then jget (jget res ty) prop else .arr [])])
  else
    let attr := (if ty = "DOIKernel" then "kernel" else ty) ++ "Metadata"
    if truthy (jget res attr) = false then .error (unrecognizedResolving id ty)
    else .ok (.obj ((jsSpread (jget res attr)).filter (fun kv => kv.1 ≠ "$")))

/-- `resolveContentID`'s processing of the parsed response: the status
check, then the per-view extraction, whose record the source passes through
`parseJsonWithValue` and returns — so the returned value is
`parseJsonWithValueResult` of the extracted record. -/
def resolveContentProcess (id ty : String) (res : JVal) : Except EIDRErrInfo JVal :=
  match resolveContentStatusError id res with
  | some e => .error e
  | none => (resolveContentExtract id ty res).map parseJsonWithValueResult

/-- The branch `resolve` (lines 325-344 of src/index.ts) dispatches to. -/
inductive ResolveRoute where
  | invalid : ResolveRoute
  | content : ResolveRoute
  | other : ResolveRoute
  | unsupported : ResolveRoute
  deriving DecidableEq

/-- The dispatch of `resolve`: reject identifiers failing `validateId`,
route `10.5240...` to `resolveContentID`, `10.5239...`/`10.5237...` to
`resolveOtherID`, and anything else to the `Unsupported record type`
error. -/
def resolveRoute (id : String) : ResolveRoute :=
  if validateId id = false then .invalid
  else if strStartsWith id "10.5240" then .content
  else if strStartsWith id "10.5239" || strStartsWith id "10.5237" then .other
  else .unsupported

/-! ## Theorems -/

/-- C1: the spec's contract for the Value-Wrapping Normalizer is
`normalize(tree) -> tree` — an equivalent normalized tree back, identity on
non-object input — so every record `resolve`/`query` extracts reaches the
caller.  The code keeps the identity on non-object input, but for every
object or array input `parseJsonWithValue` returns `undefined`: its body
has no return statement after the rules loop, so the extracted records the
dispatcher passes through it are lost (its own `simpleQuery` then calls
`.sort` on that `undefined`, and the README's `query` contract promises a
`results: object[]`). -/
theorem parseJsonWithValue_object_return_lost :
    (∀ fields, parseJsonWithValueResult (.obj fields) = .undef)
    ∧ (∀ items, parseJsonWithValueResult (.arr items) = .undef)
    ∧ parseJsonWithValueResult (.str "scalar") = .str "scalar"
    ∧ parseJsonWithValueResult .null = .null
    ∧ parseJsonWithValueResult (.num 7) = .num 7
    ∧ parseJsonWithValueResult .undef = .undef :=
  ⟨fun _ => rfl, fun _ => rfl, rfl, rfl, rfl, rfl⟩

/-- C2: the query operation's selection rules hold for the intermediate
array — identifiers-only attribute under `idOnly`, full-metadata attribute
otherwise, a single non-array result lifted into a one-element sequence, an
absent attribute yielding the empty sequence — but the record the operation
returns carries `results: undefined` rather than that sequence, because the
array is passed through `parseJsonWithValue`, which returns nothing for
arrays (the missing-return slip of C1). -/
theorem query_results_selected_but_undefined :
    (queryResultsArray false
        (.obj [("TotalMatches", .str "1"), ("SimpleMetadata", .obj [("ID", .str "X")])])
      = .arr [.obj [("ID", .str "X")]])
    ∧ (queryResultsArray false (.obj [("SimpleMetadata", .arr [.num 1, .num 2])])
      = .arr [.num 1, .num 2])
    ∧ (queryResultsArray true (.obj [("ID", .arr [.str "a"]), ("SimpleMetadata", .num 3)])
      = .arr [.str "a"])
    ∧ (queryResultsArray true (.obj [("TotalMatches", .str "0")]) = .arr [])
    ∧ (queryProcess false
        (.obj [("Response", .obj [("Status", .obj [("Code", .str "0")]),
           ("QueryResults", .obj [("TotalMatches", .str "2"),
             ("SimpleMetadata", .obj [("ID", .str "X")])])])])
      = .ok ⟨some 2, .undef⟩) :=
  ⟨rfl, rfl, rfl, rfl, rfl⟩

/-- C7: resolving a content identifier with view `Full` (or `SelfDefined`)
fails with the `Unrecognized response` error naming the identifier and the
view whenever the metadata attribute or its `BaseObjectData` field is
missing, as claimed; and when both are present the merged record —
`BaseObjectData` spread plus the sibling `ExtraObjectMetadata` — is built
and handed to the normalizer.  But the value the operation then returns is
`undefined`, not that record, because `parseJsonWithValue` returns nothing
for objects (the missing-return slip of C1). -/
theorem resolveContent_full_extract_and_loss :
    (resolveContentProcess "10.5240/5CA7-2626-3EF6-2B05-AD9C-M" "Full"
        (.obj [("Response", .obj [("Status", .obj [("Code", .str "0")])])])
      = .error ⟨"Unrecognized response", 500,
          .str "Unrecognized response resolving: id=10.5240/5CA7-2626-3EF6-2B05-AD9C-M type=Full"⟩)
    ∧ (resolveContentProcess "10.5240/5CA7-2626-3EF6-2B05-AD9C-M" "Full"
        (.obj [("Response", .obj [("Status", .obj [("Code", .str "0")])]),
               ("FullMetadata", .obj [("Foo", .num 1)])])
      = .error ⟨"Unrecognized response", 500,
          .str "Unrecognized response resolving: id=10.5240/5CA7-2626-3EF6-2B05-AD9C-M type=Full"⟩)
    ∧ (resolveContentProcess "10.5240/5CA7-2626-3EF6-2B05-AD9C-M" "SelfDefined"
        (.obj [("Response", .obj [("Status", .obj [("Code", .str "0")])])])
      = .error ⟨"Unrecognized response", 500,
          .str "Unrecognized response resolving: id=10.5240/5CA7-2626-3EF6-2B05-AD9C-M type=SelfDefined"⟩)
    ∧ (resolveContentExtract "10.5240/5CA7-2626-3EF6-2B05-AD9C-M" "Full"
        (.obj [("Response", .obj [("Status", .obj [("Code", .str "0")])]),
               ("FullMetadata", .obj
                 [("BaseObjectData", .obj [("ResourceName", .str "T")]),
                  ("ExtraObjectMetadata", .obj [("EpisodeInfo", .null)])])])
      = .ok (.obj [("ResourceName", .str "T"),
                   ("ExtraObjectMetadata", .obj [("EpisodeInfo", .null)])]))
    ∧ (resolveContentProcess "10.5240/5CA7-2626-3EF6-2B05-AD9C-M" "Full"
        (.obj [("Response", .obj [("Status", .obj [("Code", .str "0")])]),
               ("FullMetadata", .obj
                 [("BaseObjectData", .obj [("ResourceName", .str "T")]),
                  ("ExtraObjectMetadata", .obj [("EpisodeInfo", .null)])])])
      = .ok .undef) :=
  ⟨rfl, rfl, rfl, rfl, rfl⟩

/-- C3 (amended): a registry status code of `'0'` passes the status check;
any other code fails with an error whose message carries the code and
registry-reported type.  On the query operation (and the identically coded
graph traversal) codes `'4'` and `'5'` are classified access-denied (HTTP
status 403) and every other non-zero code 500; the resolve operations
instead classify every non-zero code 500, with the registry type — not the
registry `Details` — in the error detail. -/
theorem registry_status_classification (code ty det id : String) (hcode : code ≠ "0") :
    (queryProcess false (.obj [("Response", .obj [("Status",
        .obj [("Code", .str code), ("Type", .str ty), ("Details", .str det)])])])
      = .error ⟨"Error " ++ code ++ " " ++ ty,
                if code = "4" ∨ code = "5" then 403 else 500, .str det⟩)
    ∧ (resolveContentProcess id "Full" (.obj [("Response", .obj [("Status",
        .obj [("Code", .str code), ("Type", .str ty), ("Details", .str det)])])])
      = .error ⟨"Error " ++ code ++ " " ++ ty, 500,
                .str ("Registry error: id=" ++ id ++ " type=" ++ ty)⟩)
    ∧ resolveContentStatusError id (.obj [("Response", .obj [("Status",
        .obj [("Code", .str "0"), ("Type", .str ty)])])]) = none := by
  refine ⟨?_, ?_, ?_⟩
  · simp [queryProcess, jget, getAssoc, jsEqStr, jsDisplay, hcode]
  · simp [resolveContentProcess, resolveContentStatusError, jget, getAssoc, jsEqStr,
      jsDisplay, truthy, hcode]
  · simp [resolveContentStatusError, jget, getAssoc, jsEqStr, truthy]

/-- C3 counterexample: the claim says codes `'4'`/`'5'` are classified as
access-denied-class errors on any operation, resolve included; but on this
code-`'5'` response `resolveContentID` raises HTTP status 500, while the
query operation classifies the very same response 403. -/
theorem resolve_code5_status500 :
    resolveContentProcess "10.5240/5CA7-2626-3EF6-2B05-AD9C-M" "Full"
        (.obj [("Response", .obj [("Status", .obj [("Code", .str "5"),
           ("Type", .str "authentication"), ("Details", .str "access denied")])])])
      = .error ⟨"Error 5 authentication", 500,
          .str "Registry error: id=10.5240/5CA7-2626-3EF6-2B05-AD9C-M type=authentication"⟩
    ∧ queryProcess false
        (.obj [("Response", .obj [("Status", .obj [("Code", .str "5"),
           ("Type", .str "authentication"), ("Details", .str "access denied")])])])
      = .error ⟨"Error 5 authentication", 403, .str "access denied"⟩ := by
  constructor
  · simp [resolveContentProcess, resolveContentStatusError, jget, getAssoc, jsEqStr,
      jsDisplay, truthy]
  · simp [queryProcess, jget, getAssoc, jsEqStr, jsDisplay]

/-- C3 witness: the classification theorem instantiated at code `'5'`. -/
theorem registry_status_classification_witness :
    ∃ e1 e2, queryProcess false (.obj [("Response", .obj [("Status",
        .obj [("Code", .str "5"), ("Type", .str "T"), ("Details", .str "D")])])]) = .error e1
      ∧ e1.status = 403
      ∧ resolveContentProcess "10.5239/717F-CB6A" "Full" (.obj [("Response", .obj [("Status",
          .obj [("Code", .str "5"), ("Type", .str "T"), ("Details", .str "D")])])]) = .error e2
      ∧ e2.status = 500 := by
  have h := registry_status_classification "5" "T" "D" "10.5239/717F-CB6A" (by decide)
  refine ⟨_, _, h.1, by simp, h.2.1, rfl⟩

/-- `nary`'s element loop succeeds exactly when every element is a
non-blank string. -/
theorem checkExprs_eq_none {op : String} {exprs : List JVal}
    (h : ∀ e ∈ exprs, exprCheckOk e = true) : checkExprs op exprs = none := by
  induction exprs with
  | nil => rfl
  | cons a rest ih =>
    simp [checkExprs, h a (List.mem_cons_self a rest),
      ih (fun e he => h e (List.mem_cons_of_mem a he))]

/-- C4 counterexample: the claim says `joinMany` fails for the empty input
sequence and never returns a string for it; `nary` runs its element loop
vacuously on the empty array and returns the empty string. -/
theorem nary_empty_returns_empty_string :
    nary "or" (.arr []) = .ok "" ∧ nary "and" (.arr []) = .ok "" :=
  ⟨rfl, rfl⟩

/-- C4 (amended): `nary` fails for any element that is not a string or is
blank after trimming — producing an error, never a string — and fails for
non-array input; the empty sequence, however, does not fail: it returns
the empty string (see the counterexample). -/
theorem nary_rejects_bad_elements (op : String) (exprs : List JVal)
    (h : ∃ e ∈ exprs, exprCheckOk e = false) :
    (∃ msg, nary op (.arr exprs) = .error msg)
    ∧ (∀ v, isArray v = false → ∃ msg, nary op v = .error msg) := by
  constructor
  · have hc : ∃ msg, checkExprs (jsToUpper op) exprs = some msg := by
      rcases h with ⟨e, he, hbad⟩
      induction exprs with
      | nil => cases he
      | cons a rest ih =>
        rcases List.mem_cons.mp he with rfl | hrest
        · exact ⟨jsToUpper op ++ " requires string expressions: " ++ jsDisplay e,
            by simp [checkExprs, hbad]⟩
        · by_cases ha : exprCheckOk a = true
          · rcases ih hrest with ⟨m, hm⟩
            exact ⟨m, by simp [checkExprs, ha, hm]⟩
          · exact ⟨jsToUpper op ++ " requires string expressions: " ++ jsDisplay a,
              by simp [checkExprs, ha]⟩
    rcases hc with ⟨m, hm⟩
    exact ⟨m, by simp [nary, hm]⟩
  · intro v hv
    cases v with
    | arr items => simp [isArray] at hv
    | undef => exact ⟨_, rfl⟩
    | null => exact ⟨_, rfl⟩
    | bool b => exact ⟨_, rfl⟩
    | num n => exact ⟨_, rfl⟩
    | str s => exact ⟨_, rfl⟩
    | obj fields => exact ⟨_, rfl⟩

/-- C4 witness: a sequence holding a blank string is rejected. -/
theorem nary_rejects_bad_elements_witness :
    (∃ e ∈ [JVal.str "a", JVal.str "  "], exprCheckOk e = false)
    ∧ (∃ msg, nary "or" (.arr [JVal.str "a", JVal.str "  "]) = .error msg) := by
  have hbad : ∃ e ∈ [JVal.str "a", JVal.str "  "], exprCheckOk e = false :=
    ⟨.str "  ", List.mem_cons_of_mem _ (List.mem_cons_self _ _), by decide⟩
  exact ⟨hbad, (nary_rejects_bad_elements "or" [JVal.str "a", JVal.str "  "] hbad).1⟩

/-- What `nary` returns on a sequence of already trimmed, non-blank
strings: the elements joined by the uppercased operator, wrapped in one
parenthesis pair exactly when more than one element is present. -/
theorem nary_ok_of_trimmed (op : String) (exprs : List String)
    (h : ∀ e ∈ exprs, jsTrim e = e ∧ e ≠ "") :
    nary op (.arr (exprs.map .str))
      = .ok ((if 1 < exprs.length then "(" else "")
          ++ String.intercalate (" " ++ jsToUpper op ++ " ") exprs
          ++ (if 1 < exprs.length then ")" else "")) := by
  have hc : checkExprs (jsToUpper op) (exprs.map .str) = none := by
    apply checkExprs_eq_none
    intro e he
    rcases List.mem_map.mp he with ⟨s, hs, rfl⟩
    rcases h s hs with ⟨ht, hne⟩
    simp [exprCheckOk, ht, hne]
  have hmap : (exprs.map JVal.str).map (fun e => jsTrim (strOfD e)) = exprs := by
    rw [List.map_map]
    have : ∀ s ∈ exprs, (fun e => jsTrim (strOfD e)) (JVal.str s) = id s := by
      intro s hs
      simp [strOfD, (h s hs).1]
    calc exprs.map ((fun e => jsTrim (strOfD e)) ∘ JVal.str)
        = exprs.map id := List.map_congr_left this
      _ = exprs := List.map_id exprs
  simp only [nary, hc, hmap, List.length_map]

/-- C5: on a non-empty sequence of non-empty trimmed expressions, the
AND/OR joiner returns a single expression unwrapped, and joins two or more
with the literal ` AND `/` OR ` operator text inside exactly one outer
parenthesis pair. -/
theorem nary_parenthesization (exprs : List String)
    (h : ∀ e ∈ exprs, jsTrim e = e ∧ e ≠ "") :
    (∀ e, exprs = [e] →
        nary "and" (.arr [.str e]) = .ok e ∧ nary "or" (.arr [.str e]) = .ok e)
    ∧ (2 ≤ exprs.length →
        nary "and" (.arr (exprs.map .str))
            = .ok ("(" ++ String.intercalate " AND " exprs ++ ")")
        ∧ nary "or" (.arr (exprs.map .str))
            = .ok ("(" ++ String.intercalate " OR " exprs ++ ")")) := by
  constructor
  · rintro e rfl
    have h1 := nary_ok_of_trimmed "and" [e] h
    have h2 := nary_ok_of_trimmed "or" [e] h
    simp [String.intercalate, String.intercalate.go] at h1 h2
    exact ⟨h1, h2⟩
  · intro hlen
    have hone : 1 < exprs.length := by omega
    have h1 := nary_ok_of_trimmed "and" exprs h
    have h2 := nary_ok_of_trimmed "or" exprs h
    rw [if_pos hone, if_pos hone] at h1 h2
    constructor
    · rw [h1]; rfl
    · rw [h2]; rfl

/-- C5 witness: one expression stays unwrapped, two get one pair of
parentheses around ` OR `. -/
theorem nary_parenthesization_witness :
    nary "and" (.arr [.str "x"]) = .ok "x"
    ∧ nary "or" (.arr [.str "a", .str "b"]) = .ok "(a OR b)" := by
  have h1 := nary_parenthesization ["x"] (by decide)
  have h2 := nary_parenthesization ["a", "b"] (by decide)
  refine ⟨(h1.1 "x" rfl).1, ?_⟩
  have := (h2.2 (by norm_num)).2
  simpa [String.intercalate, String.intercalate.go] using this

/-- Consuming a literal front succeeds exactly on lists extending it. -/
theorem stripPrefixChars_eq_some {p cs r : List Char} :
    stripPrefixChars p cs = some r ↔ cs = p ++ r := by
  induction p generalizing cs with
  | nil => simp [stripPrefixChars]
  | cons a ps ih =>
    cases cs with
    | nil => simp [stripPrefixChars]
    | cons c cs' =>
      by_cases hca : c = a
      · subst hca
        simp [stripPrefixChars, ih]
      · simp [stripPrefixChars, hca]

/-- A hex group written out as its four characters. -/
theorem hexGroup_eq {g : List Char} (h : IsHexGroup g) :
    ∃ a b c d, g = [a, b, c, d] ∧ isHexUC a = true ∧ isHexUC b = true
      ∧ isHexUC c = true ∧ isHexUC d = true := by
  rcases h with ⟨hlen, hhex⟩
  rcases g with _ | ⟨a, g⟩; · simp at hlen
  rcases g with _ | ⟨b, g⟩; · simp at hlen
  rcases g with _ | ⟨c, g⟩; · simp at hlen
  rcases g with _ | ⟨d, g⟩; · simp at hlen
  rcases g with _ | ⟨e, g⟩
  · exact ⟨a, b, c, d, rfl, hhex a (by simp), hhex b (by simp), hhex c (by simp),
      hhex d (by simp)⟩
  · simp at hlen

theorem hex4_eq_some {cs r : List Char} :
    hex4 cs = some r ↔ ∃ g, IsHexGroup g ∧ cs = g ++ r := by
  constructor
  · intro h
    rcases cs with _ | ⟨a, cs⟩; · simp [hex4] at h
    rcases cs with _ | ⟨b, cs⟩; · simp [hex4] at h
    rcases cs with _ | ⟨c, cs⟩; · simp [hex4] at h
    rcases cs with _ | ⟨d, rest⟩; · simp [hex4] at h
    simp only [hex4] at h
    by_cases hcond : (isHexUC a && isHexUC b && isHexUC c && isHexUC d) = true
    · rw [if_pos hcond] at h
      injection h with h'
      subst h'
      simp only [Bool.and_eq_true] at hcond
      refine ⟨[a, b, c, d], ⟨rfl, ?_⟩, rfl⟩
      intro x hx
      simp only [List.mem_cons, List.not_mem_nil, or_false] at hx
      rcases hx with rfl | rfl | rfl | rfl
      · exact hcond.1.1.1
      · exact hcond.1.1.2
      · exact hcond.1.2
      · exact hcond.2
    · rw [if_neg hcond] at h; cases h
  · rintro ⟨g, hg, rfl⟩
    rcases hexGroup_eq hg with ⟨a, b, c, d, rfl, ha, hb, hc, hd⟩
    simp [hex4, ha, hb, hc, hd]

theorem hexGroupDash_eq_some {cs r : List Char} :
    hexGroupDash cs = some r ↔ ∃ g, IsHexGroup g ∧ cs = g ++ '-' :: r := by
  unfold hexGroupDash
  constructor
  · intro h
    rcases hh : hex4 cs with _ | rest
    · rw [hh] at h; cases h
    · rw [hh] at h
      rcases rest with _ | ⟨x, rest'⟩
      · simp at h
      · by_cases hx : x = '-'
        · subst hx
          simp only [if_pos rfl] at h
          injection h with h'
          subst h'
          rcases hex4_eq_some.mp hh with ⟨g, hg, rfl⟩
          exact ⟨g, hg, rfl⟩
        · simp [hx] at h
  · rintro ⟨g, hg, rfl⟩
    have h4 : hex4 (g ++ '-' :: r) = some ('-' :: r) := hex4_eq_some.mpr ⟨g, hg, rfl⟩
    rw [h4]
    simp

theorem contentTail_eq_true {cs : List Char} :
    contentTail cs = true
      ↔ ∃ g1 g2 g3 g4 g5 y,
          cs = g1 ++ ('-' :: (g2 ++ ('-' :: (g3 ++ ('-' :: (g4 ++ ('-' :: (g5 ++ ['-', y]))))))))
          ∧ IsHexGroup g1 ∧ IsHexGroup g2 ∧ IsHexGroup g3 ∧ IsHexGroup g4 ∧ IsHexGroup g5
          ∧ isCheckChar y = true := by
  constructor
  · intro h
    unfold contentTail at h
    rcases hch : (hexGroupDash cs >>= hexGroupDash >>= hexGroupDash >>= hexGroupDash
        >>= hexGroupDash) with _ | l
    · rw [hch] at h; cases h
    rw [hch] at h
    rcases l with _ | ⟨y, t⟩
    · cases h
    rcases t with _ | ⟨z, t'⟩
    case cons.cons => cases h
    rcases Option.bind_eq_some.mp hch with ⟨r4, hch4, h5⟩
    rcases Option.bind_eq_some.mp hch4 with ⟨r3, hch3, h4⟩
    rcases Option.bind_eq_some.mp hch3 with ⟨r2, hch2, h3⟩
    rcases Option.bind_eq_some.mp hch2 with ⟨r1, h1, h2⟩
    rcases hexGroupDash_eq_some.mp h1 with ⟨g1, hg1, rfl⟩
    rcases hexGroupDash_eq_some.mp h2 with ⟨g2, hg2, rfl⟩
    rcases hexGroupDash_eq_some.mp h3 with ⟨g3, hg3, rfl⟩
    rcases hexGroupDash_eq_some.mp h4 with ⟨g4, hg4, rfl⟩
    rcases hexGroupDash_eq_some.mp h5 with ⟨g5, hg5, rfl⟩
    exact ⟨g1, g2, g3, g4, g5, y, rfl, hg1, hg2, hg3, hg4, hg5, h⟩
  · rintro ⟨g1, g2, g3, g4, g5, y, rfl, hg1, hg2, hg3, hg4, hg5, hy⟩
    unfold contentTail
    have e1 : hexGroupDash
        (g1 ++ ('-' :: (g2 ++ ('-' :: (g3 ++ ('-' :: (g4 ++ ('-' :: (g5 ++ ['-', y])))))))))
        = some (g2 ++ ('-' :: (g3 ++ ('-' :: (g4 ++ ('-' :: (g5 ++ ['-', y]))))))) :=
      hexGroupDash_eq_some.mpr ⟨g1, hg1, rfl⟩
    have e2 : hexGroupDash (g2 ++ ('-' :: (g3 ++ ('-' :: (g4 ++ ('-' :: (g5 ++ ['-', y])))))))
        = some (g3 ++ ('-' :: (g4 ++ ('-' :: (g5 ++ ['-', y]))))) :=
      hexGroupDash_eq_some.mpr ⟨g2, hg2, rfl⟩
    have e3 : hexGroupDash (g3 ++ ('-' :: (g4 ++ ('-' :: (g5 ++ ['-', y])))))
        = some (g4 ++ ('-' :: (g5 ++ ['-', y]))) :=
      hexGroupDash_eq_some.mpr ⟨g3, hg3, rfl⟩
    have e4 : hexGroupDash (g4 ++ ('-' :: (g5 ++ ['-', y])))
        = some (g5 ++ ['-', y]) :=
      hexGroupDash_eq_some.mpr ⟨g4, hg4, rfl⟩
    have e5 : hexGroupDash (g5 ++ ['-', y]) = some [y] :=
      hexGroupDash_eq_some.mpr ⟨g5, hg5, rfl⟩
    simp only [e1, e2, e3, e4, e5, Option.bind_eq_bind, Option.some_bind]
    exact hy

theorem otherTail_eq_true {cs : List Char} :
    otherTail cs = true ↔ ∃ g1 g2, IsHexGroup g1 ∧ IsHexGroup g2 ∧ cs = g1 ++ ('-' :: g2) := by
  constructor
  · intro h
    unfold otherTail at h
    split at h
    case h_2 => cases h
    case h_1 rest h1 =>
      split at h
      case h_2 => cases h
      case h_1 h2 =>
        rcases hexGroupDash_eq_some.mp h1 with ⟨g1, hg1, rfl⟩
        rcases hex4_eq_some.mp h2 with ⟨g2, hg2, hrest⟩
        refine ⟨g1, g2, hg1, hg2, ?_⟩
        rw [List.append_nil] at hrest
        rw [hrest]
  · rintro ⟨g1, g2, hg1, hg2, rfl⟩
    unfold otherTail
    rw [hexGroupDash_eq_some.mpr ⟨g1, hg1, rfl⟩]
    dsimp only
    rw [show hex4 g2 = some [] from hex4_eq_some.mpr ⟨g2, hg2, by simp⟩]

theorem matchAnchored_eq_true {p : String} {tail : List Char → Bool} {s : String} :
    matchAnchored p tail s = true ↔ ∃ rest, s.data = p.data ++ rest ∧ tail rest = true := by
  unfold matchAnchored
  rcases h : stripPrefixChars p.data s.data with _ | rest
  · constructor
    · intro hh; cases hh
    · rintro ⟨rest, hr, _⟩
      have h2 := stripPrefixChars_eq_some.mpr hr
      rw [h] at h2; cases h2
  · constructor
    · intro hh
      exact ⟨rest, stripPrefixChars_eq_some.mp h, hh⟩
    · rintro ⟨rest', hr, hf⟩
      have h2 := stripPrefixChars_eq_some.mpr hr
      rw [h] at h2
      injection h2 with h3
      rw [h3]
      exact hf

/-- The validator accepts exactly the two documented shapes. -/
theorem validateId_eq_true {s : String} :
    validateId s = true ↔ ContentIdShape s ∨ OtherIdShape s := by
  unfold validateId
  simp only [Bool.or_eq_true, matchAnchored_eq_true]
  constructor
  · rintro ((⟨rest, hdata, hct⟩ | ⟨rest, hdata, hot⟩) | ⟨rest, hdata, hot⟩)
    · left
      rcases contentTail_eq_true.mp hct with ⟨g1, g2, g3, g4, g5, y, rfl, h1, h2, h3, h4, h5, hy⟩
      exact ⟨g1, g2, g3, g4, g5, y, hdata, h1, h2, h3, h4, h5, hy⟩
    · right
      rcases otherTail_eq_true.mp hot with ⟨g1, g2, hg1, hg2, rfl⟩
      exact ⟨"10.5237/", g1, g2, Or.inl rfl, hdata, hg1, hg2⟩
    · right
      rcases otherTail_eq_true.mp hot with ⟨g1, g2, hg1, hg2, rfl⟩
      exact ⟨"10.5239/", g1, g2, Or.inr rfl, hdata, hg1, hg2⟩
  · rintro (⟨g1, g2, g3, g4, g5, y, hdata, h1, h2, h3, h4, h5, hy⟩
      | ⟨p, g1, g2, hp, hdata, hg1, hg2⟩)
    · exact Or.inl (Or.inl ⟨_, hdata,
        contentTail_eq_true.mpr ⟨g1, g2, g3, g4, g5, y, rfl, h1, h2, h3, h4, h5, hy⟩⟩)
    · rcases hp with rfl | rfl
      · exact Or.inl (Or.inr ⟨_, hdata, otherTail_eq_true.mpr ⟨g1, g2, hg1, hg2, rfl⟩⟩)
      · exact Or.inr ⟨_, hdata, otherTail_eq_true.mpr ⟨g1, g2, hg1, hg2, rfl⟩⟩

/-- C8: `validateId` is a pure boolean predicate (total by construction —
it never throws) accepting exactly the strings of the content shape
`10.5240/XXXX-XXXX-XXXX-XXXX-XXXX-Y` or the other-identifier shape
`10.523[79]/XXXX-XXXX`; it accepts the documented example and rejects the
five-group truncation and every `10.5241/...` string. -/
theorem validateId_characterization :
    (∀ s : String, validateId s = true ↔ (ContentIdShape s ∨ OtherIdShape s))
    ∧ validateId "10.5240/5CA7-2626-3EF6-2B05-AD9C-M" = true
    ∧ validateId "10.5240/5CA7-2626-3EF6-2B05-AD9C" = false
    ∧ (∀ t : String, validateId ("10.5241/" ++ t) = false) := by
  refine ⟨fun s => validateId_eq_true, by decide, by decide, fun t => ?_⟩
  simp [validateId, matchAnchored, stripPrefixChars, String.data_append]

theorem isPrefixOf_append_self (l r : List Char) : l.isPrefixOf (l ++ r) = true := by
  induction l with
  | nil => simp [List.isPrefixOf]
  | cons a t ih => simp [List.isPrefixOf, ih]

/-- C10: every string the validator accepts starts with one of the three
namespace prefixes 10.5240, 10.5237, 10.5239, so `resolve`'s trailing
unsupported-record-type branch — reached only after validation succeeds and
all three prefix checks fail — is unreachable. -/
theorem validated_id_prefixes (id : String) (h : validateId id = true) :
    (strStartsWith id "10.5240" = true ∨ strStartsWith id "10.5237" = true
      ∨ strStartsWith id "10.5239" = true)
    ∧ resolveRoute id ≠ ResolveRoute.unsupported := by
  have hpre : strStartsWith id "10.5240" = true ∨ strStartsWith id "10.5237" = true
      ∨ strStartsWith id "10.5239" = true := by
    rcases validateId_eq_true.mp h with hc | ho
    · rcases hc with ⟨g1, g2, g3, g4, g5, y, hdata, _⟩
      left
      unfold strStartsWith
      rw [hdata, show "10.5240/".data = "10.5240".data ++ ['/'] from by decide,
        List.append_assoc]
      exact isPrefixOf_append_self _ _
    · rcases ho with ⟨p, g1, g2, hp, hdata, _⟩
      rcases hp with rfl | rfl
      · right; left
        unfold strStartsWith
        rw [hdata, show "10.5237/".data = "10.5237".data ++ ['/'] from by decide,
          List.append_assoc]
        exact isPrefixOf_append_self _ _
      · right; right
        unfold strStartsWith
        rw [hdata, show "10.5239/".data = "10.5239".data ++ ['/'] from by decide,
          List.append_assoc]
        exact isPrefixOf_append_self _ _
  refine ⟨hpre, ?_⟩
  by_cases hc : strStartsWith id "10.5240" = true
  · simp [resolveRoute, h, hc]
  · have h23 : (strStartsWith id "10.5239" || strStartsWith id "10.5237") = true := by
      rcases hpre with h1 | h1 | h1
      · exact absurd h1 hc
      · simp [h1]
      · simp [h1]
    simp [resolveRoute, h, hc, h23]

/-- C10 witness: the dispatch at a concrete validated identifier. -/
theorem validated_id_prefixes_witness :
    validateId "10.5240/5CA7-2626-3EF6-2B05-AD9C-M" = true
    ∧ resolveRoute "10.5240/5CA7-2626-3EF6-2B05-AD9C-M" ≠ ResolveRoute.unsupported := by
  have h := validated_id_prefixes "10.5240/5CA7-2626-3EF6-2B05-AD9C-M" (by decide)
  exact ⟨by decide, h.2⟩

theorem isJsSpace_false_of_hex {c : Char} (h : isHexUC c = true) : isJsSpace c = false := by
  cases hsp : isJsSpace c
  · rfl
  · exfalso
    unfold isJsSpace at hsp
    rcases of_decide_eq_true hsp with rfl | rfl | rfl | rfl | rfl | rfl | rfl <;>
      exact absurd h (by decide)

theorem isJsSpace_false_of_check {c : Char} (h : isCheckChar c = true) : isJsSpace c = false := by
  cases hsp : isJsSpace c
  · rfl
  · exfalso
    unfold isJsSpace at hsp
    rcases of_decide_eq_true hsp with rfl | rfl | rfl | rfl | rfl | rfl | rfl <;>
      exact absurd h (by decide)

/-- Trimming is the identity on a list whose first and last characters are
not whitespace. -/
theorem jsTrimChars_eq_self {l : List Char}
    (h1 : ∀ c, l.head? = some c → isJsSpace c = false)
    (h2 : ∀ c, l.getLast? = some c → isJsSpace c = false) :
    jsTrimChars l = l := by
  cases l with
  | nil => rfl
  | cons a t =>
    have ha : isJsSpace a = false := h1 a rfl
    unfold jsTrimChars
    rw [List.dropWhile_cons, ha]
    simp only [Bool.false_eq_true, if_false]
    rcases List.eq_nil_or_concat (a :: t) with hnil | ⟨L, b, hab⟩
    · cases hnil
    have hab' : a :: t = L ++ [b] := by simpa [List.concat_eq_append] using hab
    have hb : isJsSpace b = false := h2 b (by rw [hab', List.getLast?_concat])
    rw [hab']
    rw [show (L ++ [b]).reverse = b :: L.reverse from by simp]
    rw [List.dropWhile_cons, hb]
    simp

/-- A validated identifier is non-empty and neither starts nor ends with
whitespace (every character of the two shapes is a digit, letter, dot,
hyphen or slash). -/
theorem validateId_ends {id : String} (h : validateId id = true) :
    id.data ≠ []
    ∧ (∀ c, id.data.head? = some c → isJsSpace c = false)
    ∧ (∀ c, id.data.getLast? = some c → isJsSpace c = false) := by
  rcases validateId_eq_true.mp h with hc | ho
  · rcases hc with ⟨g1, g2, g3, g4, g5, y, hdata, _, _, _, _, _, hy⟩
    have hcons : id.data = '1' :: ("0.5240/".data
        ++ (g1 ++ ('-' :: (g2 ++ ('-' :: (g3 ++ ('-' :: (g4 ++ ('-' :: (g5 ++ ['-', y])))))))))) := by
      rw [hdata, show "10.5240/".data = '1' :: "0.5240/".data from by decide]
      rfl
    have hlast : id.data.getLast? = some y := by
      have hsplit : id.data = ("10.5240/".data ++ g1 ++ ['-'] ++ g2 ++ ['-'] ++ g3 ++ ['-']
          ++ g4 ++ ['-'] ++ g5 ++ ['-']) ++ [y] := by
        rw [hdata]
        simp [List.append_assoc]
      rw [hsplit, List.getLast?_concat]
    refine ⟨by rw [hcons]; simp, ?_, ?_⟩
    · intro c hcq
      rw [hcons] at hcq
      injection hcq with hcq
      rw [← hcq]
      decide
    · intro c hcq
      rw [hlast] at hcq
      injection hcq with hcq
      rw [← hcq]
      exact isJsSpace_false_of_check hy
  · rcases ho with ⟨p, g1, g2, hp, hdata, _, hg2⟩
    rcases hexGroup_eq hg2 with ⟨a, b, c', d, rfl, _, _, _, hd⟩
    have hp1 : ∃ prest, p.data = '1' :: prest := by
      rcases hp with rfl | rfl
      · exact ⟨"0.5237/".data, by decide⟩
      · exact ⟨"0.5239/".data, by decide⟩
    rcases hp1 with ⟨prest, hpdata⟩
    have hcons : id.data = '1' :: (prest ++ (g1 ++ ('-' :: [a, b, c', d]))) := by
      rw [hdata, hpdata]
      rfl
    have hlast : id.data.getLast? = some d := by
      have hsplit : id.data = (p.data ++ g1 ++ ['-', a, b, c']) ++ [d] := by
        rw [hdata]
        simp [List.append_assoc]
      rw [hsplit, List.getLast?_concat]
    refine ⟨by rw [hcons]; simp, ?_, ?_⟩
    · intro c hcq
      rw [hcons] at hcq
      injection hcq with hcq
      rw [← hcq]
      decide
    · intro c hcq
      rw [hlast] at hcq
      injection hcq with hcq
      rw [← hcq]
      exact isJsSpace_false_of_hex hd

/-- The id-predicate leaf built around a validated identifier is already
trimmed and non-blank, so `nary`'s per-element trim leaves it unchanged. -/
theorem idLeaf_trimmed {id : String} (h : validateId id = true) :
    jsTrim ("/FullMetadata/BaseObjectData/ID " ++ id)
        = "/FullMetadata/BaseObjectData/ID " ++ id
    ∧ ("/FullMetadata/BaseObjectData/ID " ++ id) ≠ "" := by
  rcases validateId_ends h with ⟨hne, _, hlastid⟩
  have hdata : ("/FullMetadata/BaseObjectData/ID " ++ id).data
      = '/' :: ("FullMetadata/BaseObjectData/ID ".data ++ id.data) := by
    rw [String.data_append,
      show "/FullMetadata/BaseObjectData/ID ".data
        = '/' :: "FullMetadata/BaseObjectData/ID ".data from by decide]
    rfl
  have htrim : jsTrimChars (("/FullMetadata/BaseObjectData/ID " ++ id).data)
      = ("/FullMetadata/BaseObjectData/ID " ++ id).data := by
    apply jsTrimChars_eq_self
    · intro c hcq
      rw [hdata] at hcq
      injection hcq with hcq
      rw [← hcq]
      decide
    · intro c hcq
      rw [hdata] at hcq
      rw [show ('/' :: ("FullMetadata/BaseObjectData/ID ".data ++ id.data))
            = ('/' :: "FullMetadata/BaseObjectData/ID ".data) ++ id.data from rfl,
        List.getLast?_append_of_ne_nil _ hne] at hcq
      exact hlastid c hcq
  constructor
  · show String.mk (jsTrimChars (("/FullMetadata/BaseObjectData/ID " ++ id).data)) = _
    rw [htrim]
  · intro heq
    have := congrArg String.data heq
    rw [hdata] at this
    cases this

theorem firstInvalidId_eq_none {ids : List String}
    (h : ∀ id ∈ ids, validateId id = true) : firstInvalidId ids = none := by
  induction ids with
  | nil => rfl
  | cons a rest ih =>
    simp [firstInvalidId, h a (List.mem_cons_self a rest),
      ih fun x hx => h x (List.mem_cons_of_mem a hx)]

/-- C6: an id predicate over a space-separated list of validated
identifiers: `exact` mode with two or more identifiers fails (with the
source's arity error) before producing any output; `words` mode succeeds,
OR-joining one leaf per identifier in input order; `exact` mode with
exactly one identifier returns the single leaf unwrapped. -/
theorem idQuery_modes (s : String)
    (hval : ∀ id ∈ idsOf s, validateId id = true)
    (hne : idsOf s ≠ []) :
    (2 ≤ (idsOf s).length →
        idQuery (.obj [("exact", .str s)])
          = .error ("Excat ID expect single ID, but found " ++ toString (idsOf s).length))
    ∧ idQuery (.obj [("words", .str s)])
        = .ok ((if 1 < (idsOf s).length then "(" else "")
            ++ String.intercalate " OR "
                ((idsOf s).map (fun id => "/FullMetadata/BaseObjectData/ID " ++ id))
            ++ (if 1 < (idsOf s).length then ")" else ""))
    ∧ (∀ single, idsOf s = [single] →
        idQuery (.obj [("exact", .str s)])
          = .ok ("(/FullMetadata/BaseObjectData/ID " ++ single ++ ")")) := by
  have hasp : assertSingleProperty (.obj [("exact", .str s)]) = .ok ("exact", .str s) := rfl
  have hasp2 : assertSingleProperty (.obj [("words", .str s)]) = .ok ("words", .str s) := rfl
  have hlen0 : ¬ (idsOf s).length = 0 := by
    simpa [List.length_eq_zero] using hne
  have hinv : firstInvalidId (idsOf s) = none := firstInvalidId_eq_none hval
  refine ⟨?_, ?_, ?_⟩
  · intro h2
    rcases hl : idsOf s with _ | ⟨a, t⟩
    · exact absurd hl hne
    rcases t with _ | ⟨b, t'⟩
    · rw [hl] at h2; simp at h2
    rw [hl] at hinv
    simp only [idQuery, hasp, hl]
    simp [hinv]
  · have hor : OR ((idsOf s).map (fun id => "/FullMetadata/BaseObjectData/ID " ++ id))
        = .ok ((if 1 < (idsOf s).length then "(" else "")
            ++ String.intercalate " OR "
                ((idsOf s).map (fun id => "/FullMetadata/BaseObjectData/ID " ++ id))
            ++ (if 1 < (idsOf s).length then ")" else "")) := by
      unfold OR
      rw [List.map_map]
      have := nary_ok_of_trimmed "or"
        ((idsOf s).map (fun id => "/FullMetadata/BaseObjectData/ID " ++ id)) ?_
      · rw [List.map_map] at this
        rw [this]
        simp [List.length_map]
        rfl
      · intro e he
        rcases List.mem_map.mp he with ⟨idv, hmem, rfl⟩
        exact idLeaf_trimmed (hval idv hmem)
    simp only [idQuery, hasp2]
    simp [hlen0, hinv, hor]
  · intro single hsingle
    rw [hsingle] at hinv
    simp only [idQuery, hasp]
    simp [hlen0, hinv, hsingle]

/-- C6 witness: two validated identifiers — `exact` rejects, `words`
OR-joins; one identifier — `exact` yields the bare leaf. -/
theorem idQuery_modes_witness :
    2 ≤ (idsOf "10.5240/5CA7-2626-3EF6-2B05-AD9C-M 10.5240/75C0-4663-9D6D-C864-1D9B-I").length
    ∧ idQuery (.obj [("exact",
        .str "10.5240/5CA7-2626-3EF6-2B05-AD9C-M 10.5240/75C0-4663-9D6D-C864-1D9B-I")])
      = .error "Excat ID expect single ID, but found 2"
    ∧ idQuery (.obj [("words",
        .str "10.5240/5CA7-2626-3EF6-2B05-AD9C-M 10.5240/75C0-4663-9D6D-C864-1D9B-I")])
      = .ok ("(/FullMetadata/BaseObjectData/ID 10.5240/5CA7-2626-3EF6-2B05-AD9C-M"
          ++ " OR /FullMetadata/BaseObjectData/ID 10.5240/75C0-4663-9D6D-C864-1D9B-I)")
    ∧ idQuery (.obj [("exact", .str "10.5240/5CA7-2626-3EF6-2B05-AD9C-M")])
      = .ok "(/FullMetadata/BaseObjectData/ID 10.5240/5CA7-2626-3EF6-2B05-AD9C-M)" := by
  have h := idQuery_modes "10.5240/5CA7-2626-3EF6-2B05-AD9C-M 10.5240/75C0-4663-9D6D-C864-1D9B-I"
    (by decide) (by decide)
  have h1 := idQuery_modes "10.5240/5CA7-2626-3EF6-2B05-AD9C-M" (by decide) (by decide)
  refine ⟨by decide, ?_, ?_, ?_⟩
  · rw [h.1 (by decide)]
    rfl
  · rw [h.2.1]
    rfl
  · rw [h1.2.2 "10.5240/5CA7-2626-3EF6-2B05-AD9C-M" (by decide)]
    rfl

theorem charDigit_digitChar {n : Nat} (h : n < 10) : charDigit (digitChar n) = some n := by
  interval_cases n <;> decide

theorem digitsToNat_append (xs ys : List Char) (acc : Nat) :
    digitsToNat (xs ++ ys) acc
      = match digitsToNat xs acc with
        | some m => digitsToNat ys m
        | none => none := by
  induction xs generalizing acc with
  | nil => rfl
  | cons c cs ih =>
    simp only [List.cons_append, digitsToNat]
    rcases charDigit c with _ | d
    · rfl
    · exact ih _

theorem digitsToNat_natKeyChars (n : Nat) :
    ∀ acc, digitsToNat (natKeyChars n) acc = some (acc * 10 ^ (natKeyChars n).length + n) := by
  induction n using Nat.strong_induction_on with
  | _ n ih =>
    intro acc
    by_cases h : n < 10
    · rw [natKeyChars, if_pos h]
      simp [digitsToNat, charDigit_digitChar h]
    · rw [natKeyChars, if_neg h]
      rw [digitsToNat_append]
      have hdiv : n / 10 < n := Nat.div_lt_self (by omega) (by omega)
      rw [ih (n / 10) hdiv acc]
      have hmod : n % 10 < 10 := Nat.mod_lt n (by omega)
      simp only [digitsToNat, charDigit_digitChar hmod]
      congr 1
      rw [List.length_append, List.length_singleton, pow_succ]
      have hdm : n / 10 * 10 + n % 10 = n := by omega
      calc (acc * 10 ^ (natKeyChars (n / 10)).length + n / 10) * 10 + n % 10
          = acc * (10 ^ (natKeyChars (n / 10)).length * 10) + (n / 10 * 10 + n % 10) := by ring
        _ = acc * (10 ^ (natKeyChars (n / 10)).length * 10) + n := by rw [hdm]

theorem natKeyChars_ne_nil (n : Nat) : natKeyChars n ≠ [] := by
  by_cases h : n < 10
  · rw [natKeyChars, if_pos h]; simp
  · rw [natKeyChars, if_neg h]; simp

theorem natKeyChars_head_ne_zero {n : Nat} (h : 1 ≤ n) :
    ∀ c cs, natKeyChars n = c :: cs → c ≠ '0' := by
  induction n using Nat.strong_induction_on with
  | _ n ih =>
    intro c cs hcons
    by_cases h10 : n < 10
    · rw [natKeyChars, if_pos h10] at hcons
      injection hcons with h1 _
      subst h1
      interval_cases n <;> decide
    · rw [natKeyChars, if_neg h10] at hcons
      rcases hh : natKeyChars (n / 10) with _ | ⟨c', cs'⟩
      · exact absurd hh (natKeyChars_ne_nil _)
      · rw [hh] at hcons
        simp only [List.cons_append] at hcons
        injection hcons with h1 _
        subst h1
        exact ih (n / 10) (Nat.div_lt_self (by omega) (by omega)) (by omega) c' cs' hh

/-- The canonical-index reading inverts the index-to-key conversion: the
embedding's array reads and writes at `natKey i` land on element `i`. -/
theorem toIndex_natKey (n : Nat) : toIndex (natKey n) = some n := by
  have hdata : (natKey n).data = natKeyChars n := rfl
  unfold toIndex
  rw [hdata]
  by_cases h0 : n = 0
  · subst h0
    rw [show natKeyChars 0 = ['0'] from by rw [natKeyChars]; rfl]
    decide
  · rcases hh : natKeyChars n with _ | ⟨c, cs⟩
    · exact absurd hh (natKeyChars_ne_nil _)
    have hc0 : c ≠ '0' := natKeyChars_head_ne_zero (by omega) c cs hh
    simp only [if_neg hc0]
    have hs := digitsToNat_natKeyChars n 0
    rw [hh] at hs
    simpa using hs

theorem natKey_injective {a b : Nat} (h : natKey a = natKey b) : a = b := by
  have : some a = some b := by rw [← toIndex_natKey a, h, toIndex_natKey b]
  injection this

theorem getAssoc_setAssoc_self (l : List (String × JVal)) (k : String) (v : JVal) :
    getAssoc (setAssoc l k v) k = some v := by
  induction l with
  | nil => simp [setAssoc, getAssoc]
  | cons kv rest ih =>
    rcases kv with ⟨k', v'⟩
    by_cases hk : k' = k
    · subst hk; simp [setAssoc, getAssoc]
    · simp [setAssoc, getAssoc, hk, ih]

theorem getAssoc_setAssoc_ne (l : List (String × JVal)) {k k' : String} (h : k' ≠ k)
    (v : JVal) : getAssoc (setAssoc l k v) k' = getAssoc l k' := by
  have hne : ¬ k = k' := fun hh => h hh.symm
  induction l with
  | nil => simp [setAssoc, getAssoc, hne]
  | cons kv rest ih =>
    rcases kv with ⟨k0, v0⟩
    by_cases hk : k0 = k
    · subst hk
      have hne0 : ¬ k0 = k' := hne
      simp [setAssoc, getAssoc, hne0]
    · simp only [setAssoc, if_neg hk]
      by_cases hk2 : k0 = k'
      · subst hk2; simp [getAssoc]
      · simp [getAssoc, hk2, ih]

theorem setAssoc_eq_self {l : List (String × JVal)} {k : String} {v : JVal}
    (h : getAssoc l k = some v) : setAssoc l k v = l := by
  induction l with
  | nil => simp [getAssoc] at h
  | cons kv rest ih =>
    rcases kv with ⟨k0, v0⟩
    by_cases hk : k0 = k
    · subst hk
      simp only [getAssoc, if_pos rfl] at h
      injection h with h
      simp [setAssoc, h]
    · simp only [getAssoc, if_neg hk] at h
      simp [setAssoc, hk, ih h]

theorem set_get?_self {l : List JVal} {i : Nat} {v : JVal} (h : l.get? i = some v) :
    l.set i v = l := by
  induction l generalizing i with
  | nil => simp at h
  | cons a t ih =>
    cases i with
    | zero =>
      simp only [List.get?] at h
      injection h with h
      simp [List.set, h]
    | succ j =>
      simp only [List.get?] at h
      simp [List.set, ih h]

theorem set_of_length_le {l : List JVal} {i : Nat} (h : l.length ≤ i) (v : JVal) :
    l.set i v = l := by
  induction l generalizing i with
  | nil => simp
  | cons a t ih =>
    cases i with
    | zero => simp at h
    | succ j => simp [List.set, ih (by simpa using h)]

/-- Self-read after a write: if the key read something truthy before, it
reads the written value afterwards. -/
theorem jget_jset_self {t : JVal} {k : String} (v : JVal)
    (h : truthy (jget t k) = true) : jget (jset t k v) k = v := by
  cases t with
  | obj l => simp [jget, jset, getAssoc_setAssoc_self]
  | arr items =>
    rcases hi : toIndex k with _ | i
    · have hread : jget (.arr items) k = .undef := by simp [jget, hi]
      rw [hread] at h; simp [truthy] at h
    · have hread : jget (.arr items) k = (items.get? i).getD .undef := by simp [jget, hi]
      rw [hread] at h
      have hlt : i < items.length := by
        rcases hg : items.get? i with _ | w
        · rw [hg] at h; simp [truthy] at h
        · by_contra hge
          rw [List.get?_eq_none.mpr (by omega)] at hg
          cases hg
      have hset : jset (.arr items) k v = .arr (items.set i v) := by simp [jset, hi]
      rw [hset]
      have hread2 : jget (.arr (items.set i v)) k = ((items.set i v).get? i).getD .undef := by
        simp [jget, hi]
      rw [hread2, List.get?_set_eq_of_lt v (by simpa using hlt)]
      rfl
  | undef => simp [jget, truthy] at h
  | null => simp [jget, truthy] at h
  | bool b => simp [jget, truthy] at h
  | num n => simp [jget, truthy] at h
  | str s => simp [jget, truthy] at h

/-- A write at one key changes any read to either its old value or the
written value. -/
theorem jget_jset_point (t : JVal) (k : String) (v : JVal) (f : String) :
    jget (jset t k v) f = jget t f ∨ jget (jset t k v) f = v := by
  cases t with
  | obj l =>
    by_cases hk : f = k
    · subst hk
      exact Or.inr (by simp [jget, jset, getAssoc_setAssoc_self])
    · exact Or.inl (by simp [jget, jset, getAssoc_setAssoc_ne l hk])
  | arr items =>
    rcases hi : toIndex k with _ | i
    · exact Or.inl (by simp [jset, hi])
    · rcases hj : toIndex f with _ | j
      · exact Or.inl (by simp [jget, jset, hi, hj])
      · by_cases hij : i = j
        · subst hij
          by_cases hlt : i < items.length
          · refine Or.inr ?_
            simp only [jget, jset, hi, hj]
            rw [List.get?_set_eq_of_lt v (by simpa using hlt)]
            rfl
          · refine Or.inl ?_
            simp only [jget, jset, hi, hj]
            rw [set_of_length_le (by omega) v]
        · refine Or.inl ?_
          simp only [jget, jset, hi, hj]
          rw [List.get?_set_ne v items hij]
  | undef => exact Or.inl rfl
  | null => exact Or.inl rfl
  | bool b => exact Or.inl rfl
  | num n => exact Or.inl rfl
  | str s => exact Or.inl rfl

/-- Writing back the very value a key already reads is a no-op (for any
defined value). -/
theorem jset_eq_self {t : JVal} {k : String} {v : JVal}
    (h : jget t k = v) (hv : v ≠ .undef) : jset t k v = t := by
  cases t with
  | obj l =>
    simp only [jget] at h
    rcases hg : getAssoc l k with _ | w
    · rw [hg] at h; exact absurd h.symm hv
    · rw [hg] at h
      simp only [Option.getD_some] at h
      subst h
      simp [jset, setAssoc_eq_self hg]
  | arr items =>
    rcases hi : toIndex k with _ | i
    · simp [jset, hi]
    · simp only [jget, hi] at h
      rcases hg : items.get? i with _ | w
      · rw [hg] at h; exact absurd h.symm hv
      · rw [hg] at h
        simp only [Option.getD_some] at h
        subst h
        simp [jset, hi, set_get?_self hg]
  | undef => rfl
  | null => rfl
  | bool b => rfl
  | num n => rfl
  | str s => rfl

/-- Writes at one canonical index key do not disturb reads at another. -/
theorem jget_jset_natKey_ne {t : JVal} {i m : Nat} (h : m ≠ i) (v : JVal) :
    jget (jset t (natKey i) v) (natKey m) = jget t (natKey m) := by
  cases t with
  | obj l =>
    have hk : natKey m ≠ natKey i := fun hh => h (natKey_injective hh)
    simp [jget, jset, getAssoc_setAssoc_ne l hk]
  | arr items =>
    simp only [jget, jset, toIndex_natKey]
    rw [List.get?_set_ne v items (fun hh => h hh.symm)]
  | undef => rfl
  | null => rfl
  | bool b => rfl
  | num n => rfl
  | str s => rfl

theorem jget_of_not_objArr {t : JVal} (h : isObjArr t = false) (k : String) :
    jget t k = .undef := by
  cases t <;> simp_all [isObjArr, jget]

theorem jset_of_not_objArr {t : JVal} (h : isObjArr t = false) (k : String) (v : JVal) :
    jset t k v = t := by
  cases t <;> simp_all [isObjArr, jset]

theorem applyRule_nil (t : JVal) : applyRule t [] = t := applyRule.eq_1 t

theorem applyRule_cons (t : JVal) (f : String) (fs : List String) :
    applyRule t (f :: fs)
      = if truthy t = false then t
        else if fs = [] then finalStep t f
        else if f = "*" then
          (match t with
           | .obj fields => .obj (fields.attach.map (fun x =>
               (x.1.1, applyRule (applyRule x.1.2 (f :: fs)) fs)))
           | .arr items => .arr (items.attach.map (fun x =>
               applyRule (applyRule x.1 (f :: fs)) fs))
           | other => other)
        else if truthy (jget t f) = true then
          (match jget t f with
           | .arr items => jset t f (.arr (items.map (fun item => applyRule item fs)))
           | w => jset t f (applyRule w fs))
        else t := by
  rw [applyRule.eq_def]

theorem finalStep_of_not_objArr {t : JVal} (h : isObjArr t = false) (f : String) :
    finalStep t f = t := by
  unfold finalStep
  rw [jget_of_not_objArr h f]
  rfl

theorem wrapArrayItems_of_not_objArr {t : JVal} (h : isObjArr t = false) :
    ∀ items s, wrapArrayItems t items s = t := by
  intro items
  induction items with
  | nil => intro s; rfl
  | cons item rest ih =>
    intro s
    simp only [wrapArrayItems]
    by_cases hobj : isObjectType item = true
    · rw [if_pos hobj]; exact ih (s + 1)
    · rw [if_neg hobj, jset_of_not_objArr h]; exact ih (s + 1)

theorem applyRule_of_not_objArr {t : JVal} (h : isObjArr t = false) (fs : List String) :
    applyRule t fs = t := by
  cases fs with
  | nil => exact applyRule_nil t
  | cons f fs' =>
    rw [applyRule_cons]
    by_cases ht : truthy t = false
    · rw [if_pos ht]
    · rw [if_neg ht]
      by_cases hfs : fs' = []
      · rw [if_pos hfs]
        exact finalStep_of_not_objArr h f
      · rw [if_neg hfs]
        by_cases hf : f = "*"
        · rw [if_pos hf]
          cases t <;> simp_all [isObjArr]
        · rw [if_neg hf]
          rw [jget_of_not_objArr h f]
          rfl

theorem wrapArrayItems_obj (l : List (String × JVal)) :
    ∀ items s, ∃ l', wrapArrayItems (.obj l) items s = .obj l' := by
  intro items
  induction items generalizing l with
  | nil => intro s; exact ⟨l, rfl⟩
  | cons item rest ih =>
    intro s
    simp only [wrapArrayItems]
    by_cases hobj : isObjectType item = true
    · rw [if_pos hobj]; exact ih l (s + 1)
    · rw [if_neg hobj]
      simp only [jset]
      exact ih _ (s + 1)

theorem wrapArrayItems_arr (xs : List JVal) :
    ∀ items s, ∃ ys, wrapArrayItems (.arr xs) items s = .arr ys ∧ ys.length = xs.length := by
  intro items
  induction items generalizing xs with
  | nil => intro s; exact ⟨xs, rfl, rfl⟩
  | cons item rest ih =>
    intro s
    simp only [wrapArrayItems]
    by_cases hobj : isObjectType item = true
    · rw [if_pos hobj]; exact ih xs (s + 1)
    · rw [if_neg hobj]
      simp only [jset]
      rcases hidx : toIndex (natKey s) with _ | i
      · exact ih xs (s + 1)
      · rcases ih (xs.set i (wrapVal item)) (s + 1) with ⟨ys, hys, hlen⟩
        exact ⟨ys, hys, by rw [hlen, List.length_set]⟩

theorem finalStep_obj (l : List (String × JVal)) (f : String) :
    ∃ l', finalStep (.obj l) f = .obj l' := by
  unfold finalStep
  rcases hv : jget (.obj l) f with _ | _ | b | n | s | items | l2
  · exact ⟨l, rfl⟩
  · exact ⟨l, rfl⟩
  · by_cases hb : b = true
    · subst hb; exact ⟨setAssoc l f (wrapVal (.bool true)), rfl⟩
    · simp only [Bool.not_eq_true] at hb; subst hb; exact ⟨l, rfl⟩
  · by_cases hn : n = 0
    · subst hn; exact ⟨l, rfl⟩
    · refine ⟨setAssoc l f (wrapVal (.num n)), ?_⟩
      simp [isObjectType, truthy, hn, jset]
  · by_cases hs : s = ""
    · subst hs; exact ⟨l, rfl⟩
    · refine ⟨setAssoc l f (wrapVal (.str s)), ?_⟩
      simp [isObjectType, truthy, hs, jset]
  · exact wrapArrayItems_obj l items 0
  · exact ⟨l, rfl⟩

theorem finalStep_arr (xs : List JVal) (f : String) :
    ∃ ys, finalStep (.arr xs) f = .arr ys ∧ ys.length = xs.length := by
  unfold finalStep
  rcases hv : jget (.arr xs) f with _ | _ | b | n | s | items | l2
  · exact ⟨xs, rfl, rfl⟩
  · exact ⟨xs, rfl, rfl⟩
  · by_cases hb : b = true
    · subst hb
      simp only [isObjectType, truthy, Bool.and_self, if_true]
      rcases hidx : toIndex f with _ | i
      · exact ⟨xs, by simp [jset, hidx], rfl⟩
      · exact ⟨xs.set i (wrapVal (.bool true)), by simp [jset, hidx], by simp⟩
    · simp only [Bool.not_eq_true] at hb; subst hb; exact ⟨xs, rfl, rfl⟩
  · by_cases hn : n = 0
    · subst hn; exact ⟨xs, rfl, rfl⟩
    · simp only [isObjectType, truthy, hn, jset]
      rcases hidx : toIndex f with _ | i
      · exact ⟨xs, by simp [jset, hidx, hn], rfl⟩
      · exact ⟨xs.set i (wrapVal (.num n)), by simp [jset, hidx, hn], by simp⟩
  · by_cases hs : s = ""
    · subst hs; exact ⟨xs, rfl, rfl⟩
    · simp only [isObjectType, truthy, hs, jset]
      rcases hidx : toIndex f with _ | i
      · exact ⟨xs, by simp [jset, hidx, hs], rfl⟩
      · exact ⟨xs.set i (wrapVal (.str s)), by simp [jset, hidx, hs], by simp⟩
  · exact wrapArrayItems_arr xs items 0
  · exact ⟨xs, rfl, rfl⟩

theorem truthy_jset (t : JVal) (k : String) (v : JVal) : truthy (jset t k v) = truthy t := by
  cases t with
  | obj l => rfl
  | arr xs => rcases hi : toIndex k with _ | i <;> simp [jset, hi, truthy]
  | undef => rfl
  | null => rfl
  | bool b => rfl
  | num n => rfl
  | str s => rfl

theorem applyRule_obj (l : List (String × JVal)) (fs : List String) :
    ∃ l', applyRule (.obj l) fs = .obj l' := by
  cases fs with
  | nil => exact ⟨l, applyRule_nil _⟩
  | cons f fs' =>
    rw [applyRule_cons]
    by_cases hfs : fs' = []
    · rw [if_neg (by simp [truthy]), if_pos hfs]
      exact finalStep_obj l f
    · rw [if_neg (by simp [truthy]), if_neg hfs]
      by_cases hf : f = "*"
      · rw [if_pos hf]
        exact ⟨_, rfl⟩
      · rw [if_neg hf]
        by_cases hv : truthy (jget (.obj l) f) = true
        · rw [if_pos hv]
          rcases hg : jget (.obj l) f with _ | _ | b | n | s | items | l2 <;>
            exact ⟨_, rfl⟩
        · rw [if_neg hv]
          exact ⟨l, rfl⟩

theorem jset_arr_exists (xs : List JVal) (f : String) (v : JVal) :
    ∃ ys, jset (.arr xs) f v = .arr ys := by
  rcases hi : toIndex f with _ | i
  · exact ⟨xs, by simp [jset, hi]⟩
  · exact ⟨xs.set i v, by simp [jset, hi]⟩

theorem applyRule_arr (xs : List JVal) (fs : List String) :
    ∃ ys, applyRule (.arr xs) fs = .arr ys := by
  cases fs with
  | nil => exact ⟨xs, applyRule_nil _⟩
  | cons f fs' =>
    rw [applyRule_cons]
    by_cases hfs : fs' = []
    · rw [if_neg (by simp [truthy]), if_pos hfs]
      rcases finalStep_arr xs f with ⟨ys, h, _⟩
      exact ⟨ys, h⟩
    · rw [if_neg (by simp [truthy]), if_neg hfs]
      by_cases hf : f = "*"
      · rw [if_pos hf]
        exact ⟨_, rfl⟩
      · rw [if_neg hf]
        by_cases hv : truthy (jget (.arr xs) f) = true
        · rw [if_pos hv]
          rcases hg : jget (.arr xs) f with _ | _ | b | n | s | items | l2 <;>
            exact jset_arr_exists xs f _
        · rw [if_neg hv]
          exact ⟨xs, rfl⟩

theorem truthy_finalStep (t : JVal) (f : String) : truthy (finalStep t f) = truthy t := by
  cases t with
  | obj l => rcases finalStep_obj l f with ⟨l', h⟩; rw [h]; rfl
  | arr xs => rcases finalStep_arr xs f with ⟨ys, h, _⟩; rw [h]; rfl
  | undef => rw [finalStep_of_not_objArr (t := .undef) rfl]
  | null => rw [finalStep_of_not_objArr (t := .null) rfl]
  | bool b => rw [finalStep_of_not_objArr (t := .bool b) rfl]
  | num n => rw [finalStep_of_not_objArr (t := .num n) rfl]
  | str s => rw [finalStep_of_not_objArr (t := .str s) rfl]

theorem truthy_applyRule (t : JVal) (fs : List String) : truthy (applyRule t fs) = truthy t := by
  cases t with
  | obj l => rcases applyRule_obj l fs with ⟨l', h⟩; rw [h]; rfl
  | arr xs => rcases applyRule_arr xs fs with ⟨ys, h⟩; rw [h]; rfl
  | undef => rw [applyRule_of_not_objArr (t := .undef) rfl]
  | null => rw [applyRule_of_not_objArr (t := .null) rfl]
  | bool b => rw [applyRule_of_not_objArr (t := .bool b) rfl]
  | num n => rw [applyRule_of_not_objArr (t := .num n) rfl]
  | str s => rw [applyRule_of_not_objArr (t := .str s) rfl]

theorem jget_wrapArrayItems_lt :
    ∀ (items : List JVal) (s : Nat) (t : JVal) (m : Nat), m < s →
      jget (wrapArrayItems t items s) (natKey m) = jget t (natKey m) := by
  intro items
  induction items with
  | nil => intro s t m _; rfl
  | cons item rest ih =>
    intro s t m hm
    simp only [wrapArrayItems]
    by_cases hobj : isObjectType item = true
    · rw [if_pos hobj]
      exact ih (s + 1) t m (by omega)
    · rw [if_neg hobj]
      rw [ih (s + 1) _ m (by omega)]
      exact jget_jset_natKey_ne (by omega) _

theorem jget_wrapArrayItems_point :
    ∀ (items : List JVal) (s : Nat) (t : JVal) (f : String),
      jget (wrapArrayItems t items s) f = jget t f
      ∨ ∃ w, jget (wrapArrayItems t items s) f = wrapVal w := by
  intro items
  induction items with
  | nil => intro s t f; exact Or.inl rfl
  | cons item rest ih =>
    intro s t f
    simp only [wrapArrayItems]
    by_cases hobj : isObjectType item = true
    · rw [if_pos hobj]
      exact ih (s + 1) t f
    · rw [if_neg hobj]
      rcases ih (s + 1) (jset t (natKey s) (wrapVal item)) f with h1 | ⟨w, hw⟩
      · rw [h1]
        rcases jget_jset_point t (natKey s) (wrapVal item) f with h2 | h2
        · exact Or.inl h2
        · exact Or.inr ⟨item, h2⟩
      · exact Or.inr ⟨w, hw⟩

theorem jget_jset_obj (l : List (String × JVal)) (k : String) (v : JVal) :
    jget (jset (.obj l) k v) k = v := by
  simp [jget, jset, getAssoc_setAssoc_self]

theorem jget_jset_arr_lt {xs : List JVal} {s : Nat} (h : s < xs.length) (v : JVal) :
    jget (jset (.arr xs) (natKey s) v) (natKey s) = v := by
  simp only [jget, jset, toIndex_natKey]
  rw [List.get?_set_eq_of_lt v (by simpa using h)]
  rfl

theorem wrapVal_ne_undef (v : JVal) : wrapVal v ≠ .undef := fun h => JVal.noConfusion h

/-- Re-running the array-element wrapping pass changes nothing: every key
it writes already holds exactly the value it would write. -/
theorem wrapArrayItems_idem :
    ∀ (items : List JVal) (s : Nat) (t : JVal),
      wrapArrayItems (wrapArrayItems t items s) items s = wrapArrayItems t items s := by
  intro items
  induction items with
  | nil => intro s t; rfl
  | cons item rest ih =>
    intro s t
    by_cases hobj : isObjectType item = true
    · simp only [wrapArrayItems, if_pos hobj]
      exact ih (s + 1) t
    · cases hOA : isObjArr t with
      | false =>
        rw [wrapArrayItems_of_not_objArr hOA (item :: rest) s]
        exact wrapArrayItems_of_not_objArr hOA (item :: rest) s
      | true =>
        cases t with
        | obj l =>
          simp only [wrapArrayItems, if_neg hobj]
          have hself : jget (jset (.obj l) (natKey s) (wrapVal item)) (natKey s)
              = wrapVal item := jget_jset_obj l (natKey s) (wrapVal item)
          have hW : jget (wrapArrayItems (jset (.obj l) (natKey s) (wrapVal item)) rest (s + 1))
              (natKey s) = wrapVal item := by
            rw [jget_wrapArrayItems_lt rest (s + 1) _ s (by omega), hself]
          rw [jset_eq_self hW (wrapVal_ne_undef item)]
          exact ih (s + 1) _
        | arr xs =>
          simp only [wrapArrayItems, if_neg hobj]
          by_cases hlt : s < xs.length
          · have hself : jget (jset (.arr xs) (natKey s) (wrapVal item)) (natKey s)
                = wrapVal item := jget_jset_arr_lt hlt (wrapVal item)
            have hW : jget (wrapArrayItems (jset (.arr xs) (natKey s) (wrapVal item)) rest (s + 1))
                (natKey s) = wrapVal item := by
              rw [jget_wrapArrayItems_lt rest (s + 1) _ s (by omega), hself]
            rw [jset_eq_self hW (wrapVal_ne_undef item)]
            exact ih (s + 1) _
          · have hnoop : jset (.arr xs) (natKey s) (wrapVal item) = .arr xs := by
              simp only [jset, toIndex_natKey]
              rw [set_of_length_le (by omega) (wrapVal item)]
            rw [hnoop]
            rcases wrapArrayItems_arr xs rest (s + 1) with ⟨ys, hys, hlen⟩
            have hnoop2 : jset (wrapArrayItems (.arr xs) rest (s + 1)) (natKey s) (wrapVal item)
                = wrapArrayItems (.arr xs) rest (s + 1) := by
              rw [hys]
              simp only [jset, toIndex_natKey]
              rw [set_of_length_le (by omega) (wrapVal item)]
            rw [hnoop2]
            exact ih (s + 1) _
        | undef => cases hOA
        | null => cases hOA
        | bool b => cases hOA
        | num n => cases hOA
        | str s' => cases hOA

/-- Re-running the final path segment step changes nothing: a value it
wrapped reads back as an object and is skipped. -/
theorem finalStep_idem (t : JVal) (f : String) : finalStep (finalStep t f) f = finalStep t f := by
  rcases hv : jget t f with _ | _ | b | n | s | items | l
  · have h1 : finalStep t f = t := by unfold finalStep; rw [hv]; rfl
    rw [h1]; exact h1
  · have h1 : finalStep t f = t := by unfold finalStep; rw [hv]; rfl
    rw [h1]; exact h1
  · by_cases hb : b = true
    · subst hb
      have h1 : finalStep t f = jset t f (wrapVal (.bool true)) := by
        unfold finalStep; rw [hv]; rfl
      have h2 : jget (jset t f (wrapVal (.bool true))) f = wrapVal (.bool true) :=
        jget_jset_self _ (by rw [hv]; rfl)
      rw [h1]
      unfold finalStep
      rw [h2]
      rfl
    · simp only [Bool.not_eq_true] at hb
      subst hb
      have h1 : finalStep t f = t := by unfold finalStep; rw [hv]; rfl
      rw [h1]; exact h1
  · by_cases hn : n = 0
    · subst hn
      have h1 : finalStep t f = t := by unfold finalStep; rw [hv]; rfl
      rw [h1]; exact h1
    · have h1 : finalStep t f = jset t f (wrapVal (.num n)) := by
        unfold finalStep; rw [hv]
        simp [isObjectType, truthy, hn]
      have h2 : jget (jset t f (wrapVal (.num n))) f = wrapVal (.num n) :=
        jget_jset_self _ (by rw [hv]; simp [truthy, hn])
      rw [h1]
      unfold finalStep
      rw [h2]
      rfl
  · by_cases hs : s = ""
    · subst hs
      have h1 : finalStep t f = t := by unfold finalStep; rw [hv]; rfl
      rw [h1]; exact h1
    · have h1 : finalStep t f = jset t f (wrapVal (.str s)) := by
        unfold finalStep; rw [hv]
        simp [isObjectType, truthy, hs]
      have h2 : jget (jset t f (wrapVal (.str s))) f = wrapVal (.str s) :=
        jget_jset_self _ (by rw [hv]; simp [truthy, hs])
      rw [h1]
      unfold finalStep
      rw [h2]
      rfl
  · have h1 : finalStep t f = wrapArrayItems t items 0 := by unfold finalStep; rw [hv]
    rw [h1]
    rcases jget_wrapArrayItems_point items 0 t f with hsame | ⟨w, hw⟩
    · unfold finalStep
      rw [hsame, hv]
      exact wrapArrayItems_idem items 0 t
    · unfold finalStep
      rw [hw]
      rfl
  · have h1 : finalStep t f = t := by unfold finalStep; rw [hv]; rfl
    rw [h1]; exact h1

theorem applyRule_cons_arr {t : JVal} {f : String} {fs' : List String} {items : List JVal}
    (ht : truthy t = true) (hfs : fs' ≠ []) (hf : f ≠ "*") (hvv : jget t f = .arr items) :
    applyRule t (f :: fs') = jset t f (.arr (items.map (fun it => applyRule it fs'))) := by
  rw [applyRule_cons, if_neg (by simp [ht]), if_neg hfs, if_neg hf,
    if_pos (by rw [hvv]; rfl), hvv]

theorem applyRule_cons_step {t : JVal} {f : String} {fs' : List String} {w : JVal}
    (ht : truthy t = true) (hfs : fs' ≠ []) (hf : f ≠ "*")
    (hvv : jget t f = w) (hv : truthy w = true) (hnotarr : isArray w = false) :
    applyRule t (f :: fs') = jset t f (applyRule w fs') := by
  rw [applyRule_cons, if_neg (by simp [ht]), if_neg hfs, if_neg hf,
    if_pos (by rw [hvv]; exact hv), hvv]
  cases w with
  | arr items => simp [isArray] at hnotarr
  | undef => rfl
  | null => rfl
  | bool b => rfl
  | num n => rfl
  | str s => rfl
  | obj l => rfl

theorem applyRule_idem_nonfinal {t : JVal} {f : String} {fs' : List String} {w : JVal}
    (ih : ∀ u, applyRule (applyRule u fs') fs' = applyRule u fs')
    (ht : truthy t = true) (hfs : fs' ≠ []) (hf : f ≠ "*")
    (hvv : jget t f = w) (hv : truthy w = true) (hnotarr : isArray w = false)
    (hctor : isArray (applyRule w fs') = false) :
    applyRule (applyRule t (f :: fs')) (f :: fs') = applyRule t (f :: fs') := by
  have h1 := applyRule_cons_step ht hfs hf hvv hv hnotarr
  have hu_truthy : truthy (jset t f (applyRule w fs')) = true := by
    rw [truthy_jset]; exact ht
  have hread : jget (jset t f (applyRule w fs')) f = applyRule w fs' :=
    jget_jset_self _ (by rw [hvv]; exact hv)
  have hw'truthy : truthy (applyRule w fs') = true := by
    rw [truthy_applyRule]; exact hv
  have h2 := applyRule_cons_step hu_truthy hfs hf hread hw'truthy hctor
  rw [h1, h2, ih w]
  exact jset_eq_self hread
    (fun hh => by rw [hh] at hw'truthy; exact absurd hw'truthy (by simp [truthy]))

/-- Re-running a wildcard-free rule changes nothing: objects already at the
final position are skipped, and every write re-writes its own value. -/
theorem applyRule_idem : ∀ (fs : List String), "*" ∉ fs →
    ∀ t, applyRule (applyRule t fs) fs = applyRule t fs := by
  intro fs
  induction fs with
  | nil => intro _ t; rw [applyRule_nil, applyRule_nil]
  | cons f fs' ih =>
    intro hw t
    have hf : f ≠ "*" := by
      intro hh
      exact hw (by rw [hh]; exact List.mem_cons_self _ _)
    have hw' : "*" ∉ fs' := fun hh => hw (List.mem_cons_of_mem f hh)
    by_cases ht : truthy t = false
    · have h1 : applyRule t (f :: fs') = t := by rw [applyRule_cons, if_pos ht]
      rw [h1]
      exact h1
    · have ht' : truthy t = true := by
        cases htt : truthy t
        · exact absurd htt ht
        · rfl
      by_cases hfs : fs' = []
      · subst hfs
        have h1 : applyRule t [f] = finalStep t f := by
          rw [applyRule_cons, if_neg ht, if_pos rfl]
        have htf : truthy (finalStep t f) = true := by
          rw [truthy_finalStep]; exact ht'
        have h2 : applyRule (finalStep t f) [f] = finalStep (finalStep t f) f := by
          rw [applyRule_cons, if_neg (by simp [htf]), if_pos rfl]
        rw [h1, h2, finalStep_idem]
      · by_cases hv : truthy (jget t f) = true
        · rcases hvv : jget t f with _ | _ | b | n | s | items | l
          · rw [hvv] at hv; exact absurd hv (by simp [truthy])
          · rw [hvv] at hv; exact absurd hv (by simp [truthy])
          · rw [hvv] at hv
            exact applyRule_idem_nonfinal (ih hw') ht' hfs hf hvv hv rfl
              (by rw [applyRule_of_not_objArr (t := .bool b) rfl fs']; rfl)
          · rw [hvv] at hv
            exact applyRule_idem_nonfinal (ih hw') ht' hfs hf hvv hv rfl
              (by rw [applyRule_of_not_objArr (t := .num n) rfl fs']; rfl)
          · rw [hvv] at hv
            exact applyRule_idem_nonfinal (ih hw') ht' hfs hf hvv hv rfl
              (by rw [applyRule_of_not_objArr (t := .str s) rfl fs']; rfl)
          · -- array field: map the sub-rule over the elements
            have h1 := applyRule_cons_arr ht' hfs hf hvv
            have hread : jget (jset t f (.arr (items.map (fun it => applyRule it fs')))) f
                = .arr (items.map (fun it => applyRule it fs')) :=
              jget_jset_self _ (by rw [hvv]; rfl)
            have hu_truthy : truthy (jset t f (.arr (items.map (fun it => applyRule it fs'))))
                = true := by rw [truthy_jset]; exact ht'
            have h2 := applyRule_cons_arr hu_truthy hfs hf hread
            have hmap : (items.map (fun it => applyRule it fs')).map
                  (fun it => applyRule it fs')
                = items.map (fun it => applyRule it fs') := by
              rw [List.map_map]
              exact List.map_congr_left (fun x _ => ih hw' x)
            rw [h1, h2, hmap]
            exact jset_eq_self hread (fun hh => JVal.noConfusion hh)
          · rw [hvv] at hv
            rcases applyRule_obj l fs' with ⟨l', hobj⟩
            exact applyRule_idem_nonfinal (ih hw') ht' hfs hf hvv hv rfl
              (by rw [hobj]; rfl)
        · have h1 : applyRule t (f :: fs') = t := by
            rw [applyRule_cons, if_neg ht, if_neg hfs, if_neg hf, if_neg hv]
          rw [h1]
          exact h1

/-- C9: the Value-Wrapping Normalizer is idempotent — normalizing an
already-normalized tree changes nothing, because values that are already
objects at the configured rule's final path position are left untouched,
and every write the pass performs re-writes its own value. -/
theorem parseJsonWithValue_idempotent (t : JVal) :
    parseJsonWithValueEffect (parseJsonWithValueEffect t) = parseJsonWithValueEffect t := by
  unfold parseJsonWithValueEffect
  by_cases hg : (truthy t && isObjectType t) = true
  · rw [if_pos hg]
    simp only [jsonFormatWithValueRules, List.foldl_cons, List.foldl_nil]
    have hnw : "*" ∉ jsSplitOnChar '.'
        "ExtraObjectMetadata.EpisodeInfo.SequenceInfo.DistributionNumber" := by decide
    have hguard : (truthy (applyRule t (jsSplitOnChar '.'
          "ExtraObjectMetadata.EpisodeInfo.SequenceInfo.DistributionNumber"))
        && isObjectType (applyRule t (jsSplitOnChar '.'
          "ExtraObjectMetadata.EpisodeInfo.SequenceInfo.DistributionNumber"))) = true := by
      cases t with
      | obj l => rcases applyRule_obj l _ with ⟨l', h⟩; rw [h]; rfl
      | arr xs => rcases applyRule_arr xs _ with ⟨ys, h⟩; rw [h]; rfl
      | undef => simp [truthy] at hg
      | null => simp [truthy] at hg
      | bool b => simp [isObjectType] at hg
      | num n => simp [isObjectType] at hg
      | str s => simp [isObjectType] at hg
    rw [if_pos hguard]
    exact applyRule_idem _ hnw t
  · rw [if_neg hg, if_neg hg]

end EIDR
